import Mathlib

/-!
# Scorecard: the confidence-scored check result

A shallow embedding of `checker/check_result.go`.

* Go `string` is `String`, Go `[]string` is `List String`.
* Go `error` is `Option GoError`; `none` is the nil error.
* Go `int` is `Int`. The only integer arithmetic is `MaxResultConfidence - int(x)`, which
  stays far inside the Go range whenever `int(x)` does.
* Go `float32` is IEEE-754 binary32. A finite binary32 value is carried as the
  rational number it denotes, and every arithmetic operation is the exact rational
  operation followed by `roundF32`, round-to-nearest with ties to even on a 24 bit
  significand. `roundF32` has no exponent limit; it coincides with binary32 on every
  magnitude in `[2^(-126), 2^127]`, and the values computed from 64 bit integers
  have magnitudes in `[2^(-63), 10 * 2^63]`.
-/

namespace Checker

/-! ## Data model -/

/-- Go error value: an error created by `errors.New` carries its message. -/
structure GoError where
  msg : String
deriving DecidableEq

/-- Source: `const MaxResultConfidence = 10`. -/
def MaxResultConfidence : Int := 10

/-- Source: `var ErrorDemoninatorZero = errors.New("internal error: denominator is 0")`. -/
def ErrorDemoninatorZero : GoError := ⟨"internal error: denominator is 0"⟩

/-- Source: `type CheckResult struct`. The field defaults are the Go zero values, which a
composite literal gives to every field it does not mention. -/
structure CheckResult where
  Error : Option GoError := none
  Name : String := ""
  Details : List String := []
  Confidence : Int := 0
  Pass : Bool := false
  ShouldRetry : Bool := false
deriving DecidableEq

/-! ## binary32 arithmetic -/

/-- A Go `float32` value: a finite number (the two zeros are identified, they compare
equal), an infinity, or a NaN. -/
inductive GoFloat32 where
  | finite (q : ℚ)
  | posInf
  | negInf
  | nan
deriving DecidableEq

/-- Nearest integer to `q`, a tie going to the even neighbour. -/
def roundHalfEven (q : ℚ) : ℤ :=
  let f := ⌊q⌋
  if q - f < 1 / 2 then f
  else if 1 / 2 < q - f then f + 1
  else if f % 2 = 0 then f else f + 1

/-- Rounding of an exact result to binary32: with `e = ⌊log₂ |q|⌋` the unit in the last
place is `2 ^ (e - 23)`, and `q` goes to the nearest multiple of it, ties to even. -/
def roundF32 (q : ℚ) : ℚ :=
  if q = 0 then 0
  else
    let ulp : ℚ := 2 ^ (Int.log 2 |q| - 23)
    roundHalfEven (q / ulp) * ulp

/-- A rational number that is a binary32 value (24 significant bits). -/
def isFloat32 (q : ℚ) : Prop := roundF32 q = q

instance (q : ℚ) : Decidable (isFloat32 q) := by
  unfold isFloat32; infer_instance

/-- Go conversion `float32(n)` of an `int`. -/
def float32OfInt (n : Int) : ℚ := roundF32 n

/-- Go `a / b` on finite `float32` values, `b` not zero. -/
def f32div (a b : ℚ) : ℚ := roundF32 (a / b)

/-- Go `a * b` on finite `float32` values. -/
def f32mul (a b : ℚ) : ℚ := roundF32 (a * b)

/-- Go `a >= t` for a finite `a`: false against a NaN, as every ordered comparison is. -/
def f32ge (a : ℚ) : GoFloat32 → Bool
  | .finite t => decide (t ≤ a)
  | .posInf => false
  | .negInf => true
  | .nan => false

/-- Go conversion `int(x)` of a finite `float32`: the fraction is discarded
(truncation towards zero). Exact whenever the truncated value fits the Go `int`; Go
leaves the result of the other case to the implementation, and every claim on the
confidence below bounds the numerator (by the denominator or by 800000) so that the
value fits. -/
def intOfFloat32 (q : ℚ) : Int := if 0 ≤ q then ⌊q⌋ else ⌈q⌉

/-! ## The five constructors -/

/-- Source: `func MakeInconclusiveResult(name string, err error) CheckResult`. -/
def MakeInconclusiveResult (name : String) (err : Option GoError) : CheckResult :=
  { Name := name
    Pass := false
    Confidence := 0
    Error := err }

/-- Source: `func MakePassResult(name string) CheckResult`. -/
def MakePassResult (name : String) : CheckResult :=
  { Name := name
    Pass := true
    Confidence := MaxResultConfidence }

/-- Source: `func MakeFailResult(name string, err error) CheckResult`. -/
def MakeFailResult (name : String) (err : Option GoError) : CheckResult :=
  { Name := name
    Pass := false
    Confidence := MaxResultConfidence
    Error := err }

/-- Source: `func MakeRetryResult(name string, err error) CheckResult`. -/
def MakeRetryResult (name : String) (err : Option GoError) : CheckResult :=
  { Name := name
    Pass := false
    ShouldRetry := true
    Error := err }

/-- Source: `func MakeProportionalResult(name string, numerator int, denominator int,
threshold float32) CheckResult`. The untyped constant `MaxResultConfidence` in
`actual * MaxResultConfidence` becomes the `float32` value 10. -/
def MakeProportionalResult (name : String) (numerator denominator : Int)
    (threshold : GoFloat32) : CheckResult :=
  if denominator = 0 then
    MakeInconclusiveResult name (some ErrorDemoninatorZero)
  else if numerator = 0 then
    { Name := name
      Pass := false
      Confidence := MaxResultConfidence }
  else
    let actual := f32div (float32OfInt numerator) (float32OfInt denominator)
    if f32ge actual threshold then
      { Name := name
        Pass := true
        Confidence := intOfFloat32 (f32mul actual (MaxResultConfidence : ℤ)) }
    else
      { Name := name
        Pass := false
        Confidence := MaxResultConfidence - intOfFloat32 (f32mul actual (MaxResultConfidence : ℤ)) }

end Checker

/-!
# Scorecard: the sorted merge writer

A shallow embedding of `cron/data/writer.go`.

* A Go `string` is a `String`. Go compares strings byte by byte, and so does the
  embedding: `goBytes` gives the UTF-8 bytes of a string, and byte sequences are
  compared lexicographically.
* The function works on its surroundings through three things that are not in
  `writer.go`: the outcome of `MakeIterator()`, the sink `out`, and the CSV layer
  (`encoding/csv` and `csvutil`). Each of them is an explicit argument of the embedding,
  and the final state of the sink is returned next to the Go return value.
* `sort.SliceStable` is the stable sort of the Go standard library. The result of a stable
  sort is fixed by the input and the comparison, and it is computed here by insertion.
-/

namespace Data

open Checker (GoError)

/-- Modelled from the spec: `repos.RepoURL`, a record "exposing a URL-like accessor and a
metadata string"; the type is declared in the package `repos`, outside `writer.go`. -/
structure RepoURL where
  url : String
  Metadata : String
deriving DecidableEq

/-- Modelled from the spec: the accessor `URL()` of `repos.RepoURL`. -/
def RepoURL.URL (r : RepoURL) : String := r.url

/-- Source: `type repoEntry struct`, with the CSV columns `repo` and `metadata`. -/
structure repoEntry where
  Repo : String
  Metadata : String
deriving DecidableEq

/-- Go error built by `fmt.Errorf` with the verb `%w`: its message, and the error it
wraps (what `errors.Unwrap` returns). -/
structure WrapError where
  msg : String
  cause : GoError
deriving DecidableEq

/-- Go `fmt.Errorf(context + "%w", err)`: the message is the context followed by the
message of `err`, and the result wraps `err`. -/
def Errorf (context : String) (err : GoError) : WrapError :=
  { msg := context ++ err.msg, cause := err }

/-- Modelled from the spec: the iterator returned by `MakeIterator`, "has more records" /
"produce next record or fail", given as the finite list of the outcomes of its
successive `Next` calls; `HasNext` reports whether an outcome is left. -/
abbrev Iterator := List (Except GoError RepoURL)

/-- Source: the conversion `repoEntry{Repo: repo.URL(), Metadata: repo.Metadata}`, written
out in both loops of `SortAndAppend`. -/
def toRepoEntry (repo : RepoURL) : repoEntry :=
  { Repo := repo.URL
    Metadata := repo.Metadata }

/-- Source: the loop `for iter.HasNext() { repo, err := iter.Next(); ... }` of
`SortAndAppend`: each record is appended to `oldRepos`, and the first failing `Next`
ends the function with its error. -/
def drainIterator : Iterator → List repoEntry → Except GoError (List repoEntry)
  | [], oldRepos => .ok oldRepos
  | .error err :: _, _ => .error err
  | .ok repo :: rest, oldRepos => drainIterator rest (oldRepos ++ [toRepoEntry repo])

/-- Source: the loop `for _, newRepo := range newRepos { ... }` of `SortAndAppend`. -/
def appendNewRepos : List RepoURL → List repoEntry → List repoEntry
  | [], oldRepos => oldRepos
  | newRepo :: rest, oldRepos => appendNewRepos rest (oldRepos ++ [toRepoEntry newRepo])

/-- Go `sort.SliceStable(s, less)`: the stable sort of `s` by `less`, computed by
insertion; an element goes before the first element that is not less than it. -/
def SliceStable {α : Type} (less : α → α → Bool) (s : List α) : List α :=
  s.insertionSort (fun a b => less b a = false)

/-- The UTF-8 encoding of one character, as the list of its bytes. -/
def utf8Char (c : Char) : List ℕ :=
  let n := c.toNat
  if n < 0x80 then [n]
  else if n < 0x800 then [0xC0 + n / 0x40, 0x80 + n % 0x40]
  else if n < 0x10000 then [0xE0 + n / 0x1000, 0x80 + n / 0x40 % 0x40, 0x80 + n % 0x40]
  else [0xF0 + n / 0x40000, 0x80 + n / 0x1000 % 0x40, 0x80 + n / 0x40 % 0x40,
    0x80 + n % 0x40]

/-- The bytes of a Go string: the UTF-8 encoding of its text. -/
def goBytes (s : String) : List ℕ := s.toList.flatMap utf8Char

/-- Source: the comparison passed to `sort.SliceStable`,
`oldRepos[i].Repo < oldRepos[j].Repo`: Go's `<` on strings, the lexicographic order of
the bytes. -/
def repoLess (a b : repoEntry) : Bool := decide (goBytes a.Repo < goBytes b.Repo)

/-- Source: `SortAndAppend` from its first line to the call of `sort.SliceStable`: the
slice that is handed to the encoder, or the wrapped error of the read that failed. -/
def collectRepos (MakeIterator : Except GoError Iterator) (newRepos : List RepoURL) :
    Except WrapError (List repoEntry) :=
  match MakeIterator with
  | .error err => .error (Errorf "error during MakeIterator: " err)
  | .ok iter =>
    match drainIterator iter [] with
    | .error err => .error (Errorf "error during iter.Next: " err)
    | .ok oldRepos => .ok (SliceStable repoLess (appendNewRepos newRepos oldRepos))

/-- The CSV layer that `SortAndAppend` calls, over a sink of type `S`; `W` is the state of
the `csv.Writer` together with the sink under it. `NewWriter` is `csv.NewWriter(out)`,
`Encode` is `csvutil.NewEncoder(csvWriter).Encode(rows)` with the error it returns,
`Flush` is `csvWriter.Flush()`, which returns nothing, `Error` is `csvWriter.Error()`,
and `sink` reads the sink under the writer. -/
structure CsvLayer (S W : Type) where
  NewWriter : S → W
  Encode : W → List repoEntry → W × Option GoError
  Flush : W → W
  Error : W → Option GoError
  sink : W → S

/-- Source: `SortAndAppend` from `csv.NewWriter(out)` to its last line: the slice is
encoded, an error of `Encode` is returned wrapped, otherwise the writer is flushed and
nil is returned. The result is the returned error (`none` is nil) and the final state of
the sink. -/
def encodeRepos {S W : Type} (csv : CsvLayer S W) (out : S) (oldRepos : List repoEntry) :
    Option WrapError × S :=
  let csvWriter := csv.NewWriter out
  match csv.Encode csvWriter oldRepos with
  | (csvWriter, some err) => (some (Errorf "error during Encode: " err), csv.sink csvWriter)
  | (csvWriter, none) => (none, csv.sink (csv.Flush csvWriter))

/-- Source: `func SortAndAppend(out io.Writer, newRepos []repos.RepoURL) error`. The
result is the returned error (`none` is nil) and the final state of the sink. -/
def SortAndAppend {S W : Type} (csv : CsvLayer S W) (MakeIterator : Except GoError Iterator)
    (out : S) (newRepos : List RepoURL) : Option WrapError × S :=
  match collectRepos MakeIterator newRepos with
  | .error err => (some err, out)
  | .ok oldRepos => encodeRepos csv out oldRepos

/-- An `io.Writer` that either takes every write or fails every write: the CSV records
it has taken, and the error it answers every write with, if any. -/
structure Sink where
  records : List (List String)
  failure : Option GoError
deriving DecidableEq

/-- Go `Write` on a `Sink`: the records are taken, or refused with the error. -/
def Sink.Write (s : Sink) (recs : List (List String)) : Sink × Option GoError :=
  match s.failure with
  | some err => (s, some err)
  | none => ({ s with records := s.records ++ recs }, none)

/-- State of a `csv.Writer` over a `Sink`: the records still in its buffer and the error
it remembers from a failed write. -/
structure CsvWriter where
  out : Sink
  buffered : List (List String)
  err : Option GoError
deriving DecidableEq

/-- The CSV layer of the Go libraries for an output that fits the 4096 byte buffer of
`csv.Writer`, which is then not written through before `Flush`. `Encode` puts the header
record before the first row and one record per row into the buffer and reports no error;
`Flush` hands the buffer to the sink and keeps the error of a failed write for `Error`. -/
def bufferedCsv : CsvLayer Sink CsvWriter where
  NewWriter out := { out := out, buffered := [], err := none }
  Encode w rows :=
    match rows with
    | [] => (w, none)
    | _ :: _ =>
      ({ w with buffered := w.buffered ++ ["repo", "metadata"]
          :: rows.map (fun r => [r.Repo, r.Metadata]) }, none)
  Flush w :=
    match w.err with
    | some _ => w
    | none =>
      match w.out.Write w.buffered with
      | (out, some err) => { w with out := out, err := some err }
      | (out, none) => { out := out, buffered := [], err := none }
  Error w := w.err
  sink w := w.out

end Data

namespace Checker

/-! ## Rounding to binary32: order and exactness -/

theorem roundHalfEven_floor_le (q : ℚ) : ⌊q⌋ ≤ roundHalfEven q := by
  unfold roundHalfEven
  simp only
  split_ifs <;> omega

theorem roundHalfEven_le_floor_succ (q : ℚ) : roundHalfEven q ≤ ⌊q⌋ + 1 := by
  unfold roundHalfEven
  simp only
  split_ifs <;> omega

theorem roundHalfEven_intCast (n : ℤ) : roundHalfEven (n : ℚ) = n := by
  unfold roundHalfEven
  simp

theorem roundHalfEven_mono {p q : ℚ} (h : p ≤ q) : roundHalfEven p ≤ roundHalfEven q := by
  have hf : ⌊p⌋ ≤ ⌊q⌋ := Int.floor_mono h
  rcases hf.lt_or_eq with hlt | heq
  · calc roundHalfEven p ≤ ⌊p⌋ + 1 := roundHalfEven_le_floor_succ p
      _ ≤ ⌊q⌋ := hlt
      _ ≤ roundHalfEven q := roundHalfEven_floor_le q
  · unfold roundHalfEven
    simp only
    rw [heq]
    split_ifs <;> first | omega | linarith

theorem le_roundHalfEven {n : ℤ} {q : ℚ} (h : (n : ℚ) ≤ q) : n ≤ roundHalfEven q := by
  have := roundHalfEven_mono h
  rwa [roundHalfEven_intCast] at this

theorem roundHalfEven_le {n : ℤ} {q : ℚ} (h : q ≤ (n : ℚ)) : roundHalfEven q ≤ n := by
  have := roundHalfEven_mono h
  rwa [roundHalfEven_intCast] at this

/-- Unfolding of `roundHalfEven` once the integer part is known. -/
theorem roundHalfEven_of_floor {q : ℚ} (f : ℤ) (h1 : (f : ℚ) ≤ q) (h2 : q < f + 1) :
    roundHalfEven q
      = if q - f < 1 / 2 then f else if 1 / 2 < q - f then f + 1
        else if f % 2 = 0 then f else f + 1 := by
  have hf : ⌊q⌋ = f := Int.floor_eq_iff.mpr ⟨h1, h2⟩
  unfold roundHalfEven
  simp only [hf]

theorem roundF32_zero : roundF32 0 = 0 := by
  simp [roundF32]

theorem roundF32_of_pos {q : ℚ} (hq : 0 < q) :
    roundF32 q
      = roundHalfEven (q / 2 ^ (Int.log 2 q - 23)) * 2 ^ (Int.log 2 q - 23) := by
  unfold roundF32
  rw [if_neg (ne_of_gt hq), abs_of_pos hq]

/-- The unit in the last place of a positive `q` brackets it between `2^23` and `2^24`
units. -/
theorem ulp_bounds {q : ℚ} (hq : 0 < q) :
    (0 : ℚ) < 2 ^ (Int.log 2 q - 23)
      ∧ 2 ^ 23 * (2 : ℚ) ^ (Int.log 2 q - 23) ≤ q
      ∧ q < 2 ^ 24 * (2 : ℚ) ^ (Int.log 2 q - 23) := by
  have h1 : ((2 : ℕ) : ℚ) ^ Int.log 2 q ≤ q := Int.zpow_log_le_self (by norm_num) hq
  have h2 : q < ((2 : ℕ) : ℚ) ^ (Int.log 2 q + 1) := Int.lt_zpow_succ_log_self (by norm_num) q
  rw [Nat.cast_ofNat] at h1 h2
  have k1 : (2 : ℚ) ^ 23 * 2 ^ (Int.log 2 q - 23) = 2 ^ Int.log 2 q := by
    rw [← zpow_natCast, ← zpow_add₀ (by norm_num)]
    congr 1
    push_cast
    ring
  have k2 : (2 : ℚ) ^ 24 * 2 ^ (Int.log 2 q - 23) = 2 ^ (Int.log 2 q + 1) := by
    rw [← zpow_natCast, ← zpow_add₀ (by norm_num)]
    congr 1
    push_cast
    ring
  refine ⟨zpow_pos (by norm_num) _, ?_, ?_⟩
  · rw [k1]; exact h1
  · rw [k2]; exact h2

/-- The rounded significand of a positive number lies between `2^23` and `2^24`. -/
theorem significand_bounds {q : ℚ} (hq : 0 < q) :
    (2 : ℤ) ^ 23 ≤ roundHalfEven (q / 2 ^ (Int.log 2 q - 23))
      ∧ roundHalfEven (q / 2 ^ (Int.log 2 q - 23)) ≤ (2 : ℤ) ^ 24 := by
  obtain ⟨hu, hlo, hhi⟩ := ulp_bounds hq
  constructor
  · apply le_roundHalfEven
    rw [le_div_iff₀ hu]
    push_cast
    exact hlo
  · apply roundHalfEven_le
    rw [div_le_iff₀ hu]
    push_cast
    exact hhi.le

theorem roundF32_pos {q : ℚ} (hq : 0 < q) : 0 < roundF32 q := by
  rw [roundF32_of_pos hq]
  obtain ⟨hu, -, -⟩ := ulp_bounds hq
  have hm := (significand_bounds hq).1
  have : (0 : ℚ) < roundHalfEven (q / 2 ^ (Int.log 2 q - 23)) := by
    have : (0 : ℤ) < roundHalfEven (q / 2 ^ (Int.log 2 q - 23)) := by
      have : (0 : ℤ) < 2 ^ 23 := by norm_num
      omega
    exact_mod_cast this
  positivity

theorem roundF32_nonneg {q : ℚ} (hq : 0 ≤ q) : 0 ≤ roundF32 q := by
  rcases hq.lt_or_eq with h | h
  · exact (roundF32_pos h).le
  · rw [← h, roundF32_zero]

/-- Rounding to binary32 is monotone on the positive numbers. -/
theorem roundF32_mono_pos {p q : ℚ} (hp : 0 < p) (h : p ≤ q) : roundF32 p ≤ roundF32 q := by
  have hq : 0 < q := lt_of_lt_of_le hp h
  have he : Int.log 2 p ≤ Int.log 2 q := Int.log_mono_right hp h
  obtain ⟨hup, -, -⟩ := ulp_bounds hp
  obtain ⟨huq, -, -⟩ := ulp_bounds hq
  rw [roundF32_of_pos hp, roundF32_of_pos hq]
  rcases he.lt_or_eq with hlt | heq
  · have hmp := (significand_bounds hp).2
    have hmq := (significand_bounds hq).1
    have hmp' : (roundHalfEven (p / 2 ^ (Int.log 2 p - 23)) : ℚ) ≤ 2 ^ 24 := by
      exact_mod_cast hmp
    have hmq' : (2 : ℚ) ^ 23 ≤ (roundHalfEven (q / 2 ^ (Int.log 2 q - 23)) : ℚ) := by
      exact_mod_cast hmq
    have hstep : (2 : ℚ) ^ 24 * 2 ^ (Int.log 2 p - 23) ≤ 2 ^ 23 * 2 ^ (Int.log 2 q - 23) := by
      have e1 : (2 : ℚ) ^ 24 * 2 ^ (Int.log 2 p - 23) = 2 ^ (Int.log 2 p + 1) := by
        rw [← zpow_natCast, ← zpow_add₀ (by norm_num)]
        congr 1
        push_cast
        ring
      have e2 : (2 : ℚ) ^ 23 * 2 ^ (Int.log 2 q - 23) = 2 ^ Int.log 2 q := by
        rw [← zpow_natCast, ← zpow_add₀ (by norm_num)]
        congr 1
        push_cast
        ring
      rw [e1, e2]
      exact zpow_le_zpow_right₀ (by norm_num) (by omega)
    calc (roundHalfEven (p / 2 ^ (Int.log 2 p - 23)) : ℚ) * 2 ^ (Int.log 2 p - 23)
        ≤ 2 ^ 24 * 2 ^ (Int.log 2 p - 23) := mul_le_mul_of_nonneg_right hmp' hup.le
      _ ≤ 2 ^ 23 * 2 ^ (Int.log 2 q - 23) := hstep
      _ ≤ (roundHalfEven (q / 2 ^ (Int.log 2 q - 23)) : ℚ) * 2 ^ (Int.log 2 q - 23) :=
          mul_le_mul_of_nonneg_right hmq' huq.le
  · rw [heq]
    rw [heq] at hup
    apply mul_le_mul_of_nonneg_right _ hup.le
    have := roundHalfEven_mono (div_le_div_of_nonneg_right h hup.le)
    exact_mod_cast this

/-- Rounding to binary32 is monotone on the non-negative numbers. -/
theorem roundF32_mono {p q : ℚ} (hp : 0 ≤ p) (h : p ≤ q) : roundF32 p ≤ roundF32 q := by
  rcases hp.lt_or_eq with h0 | h0
  · exact roundF32_mono_pos h0 h
  · rw [← h0, roundF32_zero]
    exact roundF32_nonneg (h0 ▸ h)

/-- Evaluation of `roundF32` at a positive number: `k` scales `q` to a significand in
`[2^23, 2^24)` and `f` is the integer part of that significand. -/
theorem roundF32_eval {q : ℚ} (k : ℕ) (f : ℤ) (hlo : (2 : ℚ) ^ 23 ≤ q * 2 ^ k)
    (hhi : q * 2 ^ k < 2 ^ 24) (hf1 : (f : ℚ) ≤ q * 2 ^ k) (hf2 : q * 2 ^ k < f + 1) :
    roundF32 q
      = ((if q * 2 ^ k - f < 1 / 2 then f else if 1 / 2 < q * 2 ^ k - f then f + 1
          else if f % 2 = 0 then f else f + 1 : ℤ) : ℚ) / 2 ^ k := by
  have hk : (0 : ℚ) < 2 ^ k := by positivity
  have hq : 0 < q := by
    by_contra hneg
    have : q * 2 ^ k ≤ 0 := mul_nonpos_of_nonpos_of_nonneg (not_lt.mp hneg) hk.le
    have : (0 : ℚ) < 2 ^ 23 := by norm_num
    linarith
  have p1 : (2 : ℚ) ^ ((23 : ℤ) - k) = 2 ^ 23 / 2 ^ k := by
    rw [zpow_sub₀ (by norm_num), zpow_natCast]
    norm_num
  have p2 : (2 : ℚ) ^ ((24 : ℤ) - k) = 2 ^ 24 / 2 ^ k := by
    rw [zpow_sub₀ (by norm_num), zpow_natCast]
    norm_num
  have hlog : Int.log 2 q = 23 - k := by
    apply le_antisymm
    · have : Int.log 2 q < 24 - k := by
        apply (Int.lt_zpow_iff_log_lt (by norm_num) hq).mp
        rw [Nat.cast_ofNat, p2, lt_div_iff₀ hk]
        exact hhi
      omega
    · apply (Int.zpow_le_iff_le_log (by norm_num) hq).mp
      rw [Nat.cast_ofNat, p1, div_le_iff₀ hk]
      exact hlo
  have hu : (2 : ℚ) ^ (Int.log 2 q - 23) = (2 ^ k)⁻¹ := by
    rw [hlog, ← zpow_natCast, ← zpow_neg]
    congr 1
    ring
  rw [roundF32_of_pos hq, hu, div_inv_eq_mul, roundHalfEven_of_floor f hf1 hf2,
    ← div_eq_mul_inv]

/-- Every natural number below `2^24` is a binary32 value. -/
theorem roundF32_natCast {n : ℕ} (h : n < 2 ^ 24) : roundF32 (n : ℚ) = n := by
  rcases Nat.eq_zero_or_pos n with h0 | hpos
  · subst h0
    simp [roundF32_zero]
  have hL : Nat.log 2 n < 24 := Nat.log_lt_of_lt_pow (by omega) h
  have hlo : 2 ^ Nat.log 2 n ≤ n := Nat.pow_log_le_self 2 (by omega)
  have hhi : n < 2 ^ (Nat.log 2 n + 1) := Nat.lt_pow_succ_log_self (by norm_num) n
  have hsplit : 2 ^ Nat.log 2 n * 2 ^ (23 - Nat.log 2 n) = 2 ^ 23 := by
    rw [← pow_add]
    congr 1
    omega
  have hsplit2 : 2 ^ (Nat.log 2 n + 1) * 2 ^ (23 - Nat.log 2 n) = 2 ^ 24 := by
    rw [← pow_add]
    congr 1
    omega
  have hk : 0 < 2 ^ (23 - Nat.log 2 n) := by positivity
  have a1 : 2 ^ 23 ≤ n * 2 ^ (23 - Nat.log 2 n) := by
    rw [← hsplit]
    exact Nat.mul_le_mul_right _ hlo
  have a2 : n * 2 ^ (23 - Nat.log 2 n) < 2 ^ 24 := by
    rw [← hsplit2]
    exact Nat.mul_lt_mul_of_pos_right hhi hk
  have b1 : (2 : ℚ) ^ 23 ≤ (n : ℚ) * 2 ^ (23 - Nat.log 2 n) := by exact_mod_cast a1
  have b2 : (n : ℚ) * 2 ^ (23 - Nat.log 2 n) < 2 ^ 24 := by exact_mod_cast a2
  have hcast : (((n * 2 ^ (23 - Nat.log 2 n) : ℕ) : ℤ) : ℚ)
      = (n : ℚ) * 2 ^ (23 - Nat.log 2 n) := by
    push_cast
    ring
  rw [roundF32_eval (23 - Nat.log 2 n) ((n * 2 ^ (23 - Nat.log 2 n) : ℕ) : ℤ) b1 b2
    (le_of_eq hcast) (by rw [hcast]; linarith)]
  rw [hcast, sub_self, if_pos (by norm_num), hcast]
  field_simp

/-- The conversion `float32(n)` is exact for `0 ≤ n < 2^24`. -/
theorem float32OfInt_exact {n : ℤ} (h0 : 0 ≤ n) (h : n < 2 ^ 24) : float32OfInt n = n := by
  obtain ⟨m, rfl⟩ := Int.eq_ofNat_of_zero_le h0
  have hm : m < 2 ^ 24 := by exact_mod_cast h
  unfold float32OfInt
  rw [Int.cast_natCast]
  exact roundF32_natCast hm

theorem float32OfInt_pos {n : ℤ} (h : 0 < n) : 0 < float32OfInt n :=
  roundF32_pos (by exact_mod_cast h)

theorem float32OfInt_mono {m n : ℤ} (h0 : 0 ≤ m) (h : m ≤ n) :
    float32OfInt m ≤ float32OfInt n :=
  roundF32_mono (by exact_mod_cast h0) (by exact_mod_cast h)

theorem roundF32_one : roundF32 1 = 1 := by
  have := roundF32_natCast (n := 1) (by norm_num)
  simpa using this

theorem roundF32_ten : roundF32 10 = 10 := by
  have := roundF32_natCast (n := 10) (by norm_num)
  simpa using this

theorem intOfFloat32_of_nonneg {q : ℚ} (h : 0 ≤ q) : intOfFloat32 q = ⌊q⌋ := by
  unfold intOfFloat32
  rw [if_pos h]

/-! ## Two tables of binary32 roundings around the tenths -/

/-- Table: for `k = 1, …, 10` the binary32 value nearest to `k / 10`, multiplied by 10
in binary32, is at least `k`. -/
theorem lower_table (k : ℤ) (h1 : 1 ≤ k) (h2 : k ≤ 10) :
    (k : ℚ) ≤ roundF32 (roundF32 ((k : ℚ) / 10) * 10) := by
  have hk : k = 1 ∨ k = 2 ∨ k = 3 ∨ k = 4 ∨ k = 5 ∨ k = 6 ∨ k = 7 ∨ k = 8 ∨ k = 9 ∨ k = 10 := by
    omega
  rcases hk with h | h | h | h | h | h | h | h | h | h <;> subst h
  · have hc : ((1 : ℤ) : ℚ) / 10 = 1 / 10 := by norm_num
    have e1 : roundF32 (1 / 10) = 13421773 / 134217728 := by
      rw [roundF32_eval 27 13421772 (by norm_num) (by norm_num) (by norm_num) (by norm_num)]
      norm_num
    have e2 : roundF32 (13421773 / 134217728 * 10) = 1 := by
      rw [roundF32_eval 23 8388608 (by norm_num) (by norm_num) (by norm_num) (by norm_num)]
      norm_num
    rw [hc, e1, e2]
    norm_num
  · have hc : ((2 : ℤ) : ℚ) / 10 = 1 / 5 := by norm_num
    have e1 : roundF32 (1 / 5) = 13421773 / 67108864 := by
      rw [roundF32_eval 26 13421772 (by norm_num) (by norm_num) (by norm_num) (by norm_num)]
      norm_num
    have e2 : roundF32 (13421773 / 67108864 * 10) = 2 := by
      rw [roundF32_eval 22 8388608 (by norm_num) (by norm_num) (by norm_num) (by norm_num)]
      norm_num
    rw [hc, e1, e2]
    norm_num
  · have hc : ((3 : ℤ) : ℚ) / 10 = 3 / 10 := by norm_num
    have e1 : roundF32 (3 / 10) = 5033165 / 16777216 := by
      rw [roundF32_eval 25 10066329 (by norm_num) (by norm_num) (by norm_num) (by norm_num)]
      norm_num
    have e2 : roundF32 (5033165 / 16777216 * 10) = 3 := by
      rw [roundF32_eval 22 12582912 (by norm_num) (by norm_num) (by norm_num) (by norm_num)]
      norm_num
    rw [hc, e1, e2]
    norm_num
  · have hc : ((4 : ℤ) : ℚ) / 10 = 2 / 5 := by norm_num
    have e1 : roundF32 (2 / 5) = 13421773 / 33554432 := by
      rw [roundF32_eval 25 13421772 (by norm_num) (by norm_num) (by norm_num) (by norm_num)]
      norm_num
    have e2 : roundF32 (13421773 / 33554432 * 10) = 4 := by
      rw [roundF32_eval 21 8388608 (by norm_num) (by norm_num) (by norm_num) (by norm_num)]
      norm_num
    rw [hc, e1, e2]
    norm_num
  · have hc : ((5 : ℤ) : ℚ) / 10 = 1 / 2 := by norm_num
    have e1 : roundF32 (1 / 2) = 1 / 2 := by
      rw [roundF32_eval 24 8388608 (by norm_num) (by norm_num) (by norm_num) (by norm_num)]
      norm_num
    have e2 : roundF32 (1 / 2 * 10) = 5 := by
      rw [roundF32_eval 21 10485760 (by norm_num) (by norm_num) (by norm_num) (by norm_num)]
      norm_num
    rw [hc, e1, e2]
    norm_num
  · have hc : ((6 : ℤ) : ℚ) / 10 = 3 / 5 := by norm_num
    have e1 : roundF32 (3 / 5) = 5033165 / 8388608 := by
      rw [roundF32_eval 24 10066329 (by norm_num) (by norm_num) (by norm_num) (by norm_num)]
      norm_num
    have e2 : roundF32 (5033165 / 8388608 * 10) = 6 := by
      rw [roundF32_eval 21 12582912 (by norm_num) (by norm_num) (by norm_num) (by norm_num)]
      norm_num
    rw [hc, e1, e2]
    norm_num
  · have hc : ((7 : ℤ) : ℚ) / 10 = 7 / 10 := by norm_num
    have e1 : roundF32 (7 / 10) = 11744051 / 16777216 := by
      rw [roundF32_eval 24 11744051 (by norm_num) (by norm_num) (by norm_num) (by norm_num)]
      norm_num
    have e2 : roundF32 (11744051 / 16777216 * 10) = 7 := by
      rw [roundF32_eval 21 14680063 (by norm_num) (by norm_num) (by norm_num) (by norm_num)]
      norm_num
    rw [hc, e1, e2]
    norm_num
  · have hc : ((8 : ℤ) : ℚ) / 10 = 4 / 5 := by norm_num
    have e1 : roundF32 (4 / 5) = 13421773 / 16777216 := by
      rw [roundF32_eval 24 13421772 (by norm_num) (by norm_num) (by norm_num) (by norm_num)]
      norm_num
    have e2 : roundF32 (13421773 / 16777216 * 10) = 8 := by
      rw [roundF32_eval 20 8388608 (by norm_num) (by norm_num) (by norm_num) (by norm_num)]
      norm_num
    rw [hc, e1, e2]
    norm_num
  · have hc : ((9 : ℤ) : ℚ) / 10 = 9 / 10 := by norm_num
    have e1 : roundF32 (9 / 10) = 7549747 / 8388608 := by
      rw [roundF32_eval 24 15099494 (by norm_num) (by norm_num) (by norm_num) (by norm_num)]
      norm_num
    have e2 : roundF32 (7549747 / 8388608 * 10) = 9 := by
      rw [roundF32_eval 20 9437183 (by norm_num) (by norm_num) (by norm_num) (by norm_num)]
      norm_num
    rw [hc, e1, e2]
    norm_num
  · have hc : ((10 : ℤ) : ℚ) / 10 = 1 := by norm_num
    have e1 : roundF32 (1) = 1 := by
      rw [roundF32_eval 23 8388608 (by norm_num) (by norm_num) (by norm_num) (by norm_num)]
      norm_num
    have e2 : roundF32 (1 * 10) = 10 := by
      rw [roundF32_eval 20 10485760 (by norm_num) (by norm_num) (by norm_num) (by norm_num)]
      norm_num
    rw [hc, e1, e2]
    norm_num

/-- Table: for `k = 0, …, 9` the binary32 value nearest to `(k + 1) / 10 - 10⁻⁷`,
multiplied by 10 in binary32, is below `k + 1`. -/
theorem upper_table (k : ℤ) (h1 : 0 ≤ k) (h2 : k ≤ 9) :
    roundF32 (roundF32 (((k : ℚ) + 1) / 10 - 1 / 10000000) * 10) < (k : ℚ) + 1 := by
  have hk : k = 0 ∨ k = 1 ∨ k = 2 ∨ k = 3 ∨ k = 4 ∨ k = 5 ∨ k = 6 ∨ k = 7 ∨ k = 8 ∨ k = 9 := by
    omega
  rcases hk with h | h | h | h | h | h | h | h | h | h <;> subst h
  · have hc : (((0 : ℤ) : ℚ) + 1) / 10 - 1 / 10000000 = 999999 / 10000000 := by norm_num
    have e1 : roundF32 (999999 / 10000000) = 13421759 / 134217728 := by
      rw [roundF32_eval 27 13421759 (by norm_num) (by norm_num) (by norm_num) (by norm_num)]
      norm_num
    have e2 : roundF32 (13421759 / 134217728 * 10) = 16777199 / 16777216 := by
      rw [roundF32_eval 24 16777198 (by norm_num) (by norm_num) (by norm_num) (by norm_num)]
      norm_num
    rw [hc, e1, e2]
    norm_num
  · have hc : (((1 : ℤ) : ℚ) + 1) / 10 - 1 / 10000000 = 1999999 / 10000000 := by norm_num
    have e1 : roundF32 (1999999 / 10000000) = 6710883 / 33554432 := by
      rw [roundF32_eval 26 13421766 (by norm_num) (by norm_num) (by norm_num) (by norm_num)]
      norm_num
    have e2 : roundF32 (6710883 / 33554432 * 10) = 2097151 / 1048576 := by
      rw [roundF32_eval 23 16777207 (by norm_num) (by norm_num) (by norm_num) (by norm_num)]
      norm_num
    rw [hc, e1, e2]
    norm_num
  · have hc : (((2 : ℤ) : ℚ) + 1) / 10 - 1 / 10000000 = 2999999 / 10000000 := by norm_num
    have e1 : roundF32 (2999999 / 10000000) = 5033163 / 16777216 := by
      rw [roundF32_eval 25 10066326 (by norm_num) (by norm_num) (by norm_num) (by norm_num)]
      norm_num
    have e2 : roundF32 (5033163 / 16777216 * 10) = 3145727 / 1048576 := by
      rw [roundF32_eval 22 12582907 (by norm_num) (by norm_num) (by norm_num) (by norm_num)]
      norm_num
    rw [hc, e1, e2]
    norm_num
  · have hc : (((3 : ℤ) : ℚ) + 1) / 10 - 1 / 10000000 = 3999999 / 10000000 := by norm_num
    have e1 : roundF32 (3999999 / 10000000) = 13421769 / 33554432 := by
      rw [roundF32_eval 25 13421769 (by norm_num) (by norm_num) (by norm_num) (by norm_num)]
      norm_num
    have e2 : roundF32 (13421769 / 33554432 * 10) = 16777211 / 4194304 := by
      rw [roundF32_eval 22 16777211 (by norm_num) (by norm_num) (by norm_num) (by norm_num)]
      norm_num
    rw [hc, e1, e2]
    norm_num
  · have hc : (((4 : ℤ) : ℚ) + 1) / 10 - 1 / 10000000 = 4999999 / 10000000 := by norm_num
    have e1 : roundF32 (4999999 / 10000000) = 16777213 / 33554432 := by
      rw [roundF32_eval 25 16777212 (by norm_num) (by norm_num) (by norm_num) (by norm_num)]
      norm_num
    have e2 : roundF32 (16777213 / 33554432 * 10) = 5242879 / 1048576 := by
      rw [roundF32_eval 21 10485758 (by norm_num) (by norm_num) (by norm_num) (by norm_num)]
      norm_num
    rw [hc, e1, e2]
    norm_num
  · have hc : (((5 : ℤ) : ℚ) + 1) / 10 - 1 / 10000000 = 5999999 / 10000000 := by norm_num
    have e1 : roundF32 (5999999 / 10000000) = 1258291 / 2097152 := by
      rw [roundF32_eval 24 10066327 (by norm_num) (by norm_num) (by norm_num) (by norm_num)]
      norm_num
    have e2 : roundF32 (1258291 / 2097152 * 10) = 6291455 / 1048576 := by
      rw [roundF32_eval 21 12582910 (by norm_num) (by norm_num) (by norm_num) (by norm_num)]
      norm_num
    rw [hc, e1, e2]
    norm_num
  · have hc : (((6 : ℤ) : ℚ) + 1) / 10 - 1 / 10000000 = 6999999 / 10000000 := by norm_num
    have e1 : roundF32 (6999999 / 10000000) = 5872025 / 8388608 := by
      rw [roundF32_eval 24 11744049 (by norm_num) (by norm_num) (by norm_num) (by norm_num)]
      norm_num
    have e2 : roundF32 (5872025 / 8388608 * 10) = 7340031 / 1048576 := by
      rw [roundF32_eval 21 14680062 (by norm_num) (by norm_num) (by norm_num) (by norm_num)]
      norm_num
    rw [hc, e1, e2]
    norm_num
  · have hc : (((7 : ℤ) : ℚ) + 1) / 10 - 1 / 10000000 = 7999999 / 10000000 := by norm_num
    have e1 : roundF32 (7999999 / 10000000) = 13421771 / 16777216 := by
      rw [roundF32_eval 24 13421771 (by norm_num) (by norm_num) (by norm_num) (by norm_num)]
      norm_num
    have e2 : roundF32 (13421771 / 16777216 * 10) = 8388607 / 1048576 := by
      rw [roundF32_eval 21 16777213 (by norm_num) (by norm_num) (by norm_num) (by norm_num)]
      norm_num
    rw [hc, e1, e2]
    norm_num
  · have hc : (((8 : ℤ) : ℚ) + 1) / 10 - 1 / 10000000 = 8999999 / 10000000 := by norm_num
    have e1 : roundF32 (8999999 / 10000000) = 15099493 / 16777216 := by
      rw [roundF32_eval 24 15099492 (by norm_num) (by norm_num) (by norm_num) (by norm_num)]
      norm_num
    have e2 : roundF32 (15099493 / 16777216 * 10) = 9437183 / 1048576 := by
      rw [roundF32_eval 20 9437183 (by norm_num) (by norm_num) (by norm_num) (by norm_num)]
      norm_num
    rw [hc, e1, e2]
    norm_num
  · have hc : (((9 : ℤ) : ℚ) + 1) / 10 - 1 / 10000000 = 9999999 / 10000000 := by norm_num
    have e1 : roundF32 (9999999 / 10000000) = 8388607 / 8388608 := by
      rw [roundF32_eval 24 16777214 (by norm_num) (by norm_num) (by norm_num) (by norm_num)]
      norm_num
    have e2 : roundF32 (8388607 / 8388608 * 10) = 10485759 / 1048576 := by
      rw [roundF32_eval 20 10485758 (by norm_num) (by norm_num) (by norm_num) (by norm_num)]
      norm_num
    rw [hc, e1, e2]
    norm_num

/-! ## The ratio branches of `MakeProportionalResult` -/

theorem intOfFloat32_eval {q : ℚ} (z : ℤ) (h0 : 0 ≤ q) (h1 : (z : ℚ) ≤ q) (h2 : q < z + 1) :
    intOfFloat32 q = z := by
  rw [intOfFloat32_of_nonneg h0]
  exact Int.floor_eq_iff.mpr ⟨h1, h2⟩

/-- The pass branch, taken when the comparison with the threshold succeeds. -/
theorem makeProportionalResult_ge (name : String) {n d : ℤ} {threshold : GoFloat32}
    (hd : d ≠ 0) (hn : n ≠ 0)
    (h : f32ge (f32div (float32OfInt n) (float32OfInt d)) threshold = true) :
    MakeProportionalResult name n d threshold
      = { Name := name
          Pass := true
          Confidence := intOfFloat32 (f32mul (f32div (float32OfInt n) (float32OfInt d)) 10) } := by
  simp [MakeProportionalResult, hd, hn, h, MaxResultConfidence]

/-- The fail branch, taken when the comparison with the threshold does not succeed. -/
theorem makeProportionalResult_lt (name : String) {n d : ℤ} {threshold : GoFloat32}
    (hd : d ≠ 0) (hn : n ≠ 0)
    (h : f32ge (f32div (float32OfInt n) (float32OfInt d)) threshold = false) :
    MakeProportionalResult name n d threshold
      = { Name := name
          Pass := false
          Confidence :=
            10 - intOfFloat32 (f32mul (f32div (float32OfInt n) (float32OfInt d)) 10) } := by
  simp [MakeProportionalResult, hd, hn, h, MaxResultConfidence]

theorem actual_pos {n d : ℤ} (hn : 0 < n) (hd : 0 < d) :
    0 < f32div (float32OfInt n) (float32OfInt d) :=
  roundF32_pos (div_pos (float32OfInt_pos hn) (float32OfInt_pos hd))

theorem actual_le_one {n d : ℤ} (hn : 0 < n) (hnd : n ≤ d) :
    f32div (float32OfInt n) (float32OfInt d) ≤ 1 := by
  have hd : 0 < d := lt_of_lt_of_le hn hnd
  have hq : float32OfInt n / float32OfInt d ≤ 1 :=
    (div_le_one (float32OfInt_pos hd)).mpr (float32OfInt_mono hn.le hnd)
  calc f32div (float32OfInt n) (float32OfInt d)
      ≤ roundF32 1 :=
        roundF32_mono (div_pos (float32OfInt_pos hn) (float32OfInt_pos hd)).le hq
    _ = 1 := roundF32_one

/-- A quotient in `(0, 1]` scaled by 10 converts to an integer in `[0, 10]`. -/
theorem scaled_int_bounds {r : ℚ} (h0 : 0 < r) (h1 : r ≤ 1) :
    0 ≤ intOfFloat32 (f32mul r 10) ∧ intOfFloat32 (f32mul r 10) ≤ 10 := by
  have hv0 : 0 ≤ f32mul r 10 := roundF32_nonneg (by positivity)
  have hv10 : f32mul r 10 ≤ 10 := by
    calc f32mul r 10 ≤ roundF32 10 := roundF32_mono (by positivity) (by linarith)
      _ = 10 := roundF32_ten
  rw [intOfFloat32_of_nonneg hv0]
  constructor
  · exact Int.floor_nonneg.mpr hv0
  · have := Int.floor_le (f32mul r 10)
    have h10 : ((⌊f32mul r 10⌋ : ℤ) : ℚ) ≤ ((10 : ℤ) : ℚ) := by
      push_cast
      linarith
    exact_mod_cast h10

/-- A quotient of at least a tenth scaled by 10 converts to a positive integer. -/
theorem scaled_int_pos {r : ℚ} (h : 1 / 10 ≤ r) : 1 ≤ intOfFloat32 (f32mul r 10) := by
  have hv1 : 1 ≤ f32mul r 10 := by
    calc (1 : ℚ) = roundF32 1 := roundF32_one.symm
      _ ≤ f32mul r 10 := roundF32_mono (by norm_num) (by linarith)
  rw [intOfFloat32_of_nonneg (by linarith)]
  exact Int.le_floor.mpr (by exact_mod_cast hv1)

/-- For denominators up to a million the two binary32 roundings do not move the integer
part: the converted product is the floor of the exact `10 * n / d`. -/
theorem scaled_int_eq_floor {n d : ℤ} (hn : 1 ≤ n) (hnd : n ≤ d) (hd : d ≤ 1000000) :
    intOfFloat32 (f32mul (f32div (float32OfInt n) (float32OfInt d)) 10)
      = ⌊(10 * n : ℚ) / d⌋ := by
  have hnq : (0 : ℚ) < n := by exact_mod_cast (show (0 : ℤ) < n by omega)
  have hdq : (0 : ℚ) < d := by exact_mod_cast (show (0 : ℤ) < d by omega)
  have hndq : (n : ℚ) ≤ d := by exact_mod_cast hnd
  have hdmax : (d : ℚ) ≤ 1000000 := by exact_mod_cast hd
  rw [float32OfInt_exact (by omega) (by norm_num; omega),
    float32OfInt_exact (by omega) (by norm_num; omega)]
  unfold f32div f32mul
  have hratio : (0 : ℚ) < n / d := div_pos hnq hdq
  have hr0 : 0 < roundF32 ((n : ℚ) / d) := roundF32_pos hratio
  have hv0 : 0 ≤ roundF32 (roundF32 ((n : ℚ) / d) * 10) := roundF32_nonneg (by positivity)
  rw [intOfFloat32_of_nonneg hv0]
  have hk := Int.floor_eq_iff.mp (rfl : ⌊(10 * n : ℚ) / d⌋ = ⌊(10 * n : ℚ) / d⌋)
  obtain ⟨hklo, hkhi⟩ := hk
  have hk0 : 0 ≤ ⌊(10 * n : ℚ) / d⌋ := Int.floor_nonneg.mpr (by positivity)
  have hk10 : ⌊(10 * n : ℚ) / d⌋ ≤ 10 := by
    have : (10 * n : ℚ) / d ≤ 10 := by
      rw [div_le_iff₀ hdq]
      linarith
    have h10 : ((⌊(10 * n : ℚ) / d⌋ : ℤ) : ℚ) ≤ ((10 : ℤ) : ℚ) := by
      push_cast
      linarith
    exact_mod_cast h10
  generalize ⌊(10 * n : ℚ) / d⌋ = k at hklo hkhi hk0 hk10
  rw [le_div_iff₀ hdq] at hklo
  rw [div_lt_iff₀ hdq] at hkhi
  apply Int.floor_eq_iff.mpr
  constructor
  · rcases hk0.lt_or_eq with hpos | hzero
    · have hkq : (0 : ℚ) < k := by exact_mod_cast hpos
      have hle : (k : ℚ) / 10 ≤ n / d := by
        rw [div_le_div_iff₀ (by norm_num) hdq]
        linarith
      have hr : roundF32 ((k : ℚ) / 10) ≤ roundF32 ((n : ℚ) / d) :=
        roundF32_mono (by positivity) hle
      have hr10 : roundF32 ((k : ℚ) / 10) * 10 ≤ roundF32 ((n : ℚ) / d) * 10 := by linarith
      have hpos10 : 0 ≤ roundF32 ((k : ℚ) / 10) * 10 := by
        have := roundF32_nonneg (show (0 : ℚ) ≤ k / 10 by positivity)
        linarith
      calc (k : ℚ) ≤ roundF32 (roundF32 ((k : ℚ) / 10) * 10) := lower_table k (by omega) hk10
        _ ≤ roundF32 (roundF32 ((n : ℚ) / d) * 10) := roundF32_mono hpos10 hr10
    · rw [← hzero]
      simpa using hv0
  · rcases hk10.lt_or_eq with hlt | hten
    · have hint : 10 * n + 1 ≤ (k + 1) * d := by
        have : (10 * n : ℤ) < (k + 1) * d := by exact_mod_cast hkhi
        omega
      have hintq : (10 * n + 1 : ℚ) ≤ (k + 1) * d := by exact_mod_cast hint
      have hle : (n : ℚ) / d ≤ ((k : ℚ) + 1) / 10 - 1 / 10000000 := by
        rw [div_le_iff₀ hdq]
        nlinarith
      have hr : roundF32 ((n : ℚ) / d) ≤ roundF32 (((k : ℚ) + 1) / 10 - 1 / 10000000) :=
        roundF32_mono hratio.le hle
      have hr10 : roundF32 ((n : ℚ) / d) * 10
          ≤ roundF32 (((k : ℚ) + 1) / 10 - 1 / 10000000) * 10 := by linarith
      calc roundF32 (roundF32 ((n : ℚ) / d) * 10)
          ≤ roundF32 (roundF32 (((k : ℚ) + 1) / 10 - 1 / 10000000) * 10) :=
            roundF32_mono (by positivity) hr10
        _ < (k : ℚ) + 1 := upper_table k hk0 (by omega)
    · have hone : (n : ℚ) / d ≤ 1 := (div_le_one hdq).mpr hndq
      have hr : roundF32 ((n : ℚ) / d) ≤ 1 := by
        calc roundF32 ((n : ℚ) / d) ≤ roundF32 1 := roundF32_mono hratio.le hone
          _ = 1 := roundF32_one
      have hv : roundF32 (roundF32 ((n : ℚ) / d) * 10) ≤ 10 := by
        calc roundF32 (roundF32 ((n : ℚ) / d) * 10) ≤ roundF32 10 :=
              roundF32_mono (by positivity) (by linarith)
          _ = 10 := roundF32_ten
      rw [hten]
      push_cast
      linarith

/-- A binary32 value below 1 is at most `1 - 2^(-24)`, the largest binary32 value
below 1. -/
theorem roundF32_lt_one {x : ℚ} (hx : 0 < x) (h : roundF32 x < 1) :
    roundF32 x ≤ 1 - 1 / 2 ^ 24 := by
  rw [roundF32_of_pos hx] at h ⊢
  obtain ⟨hu, -, -⟩ := ulp_bounds hx
  obtain ⟨hm1, hm2⟩ := significand_bounds hx
  generalize roundHalfEven (x / 2 ^ (Int.log 2 x - 23)) = m at h hm1 hm2 ⊢
  generalize Int.log 2 x = e at h hu ⊢
  have hm1q : (2 : ℚ) ^ 23 ≤ m := by exact_mod_cast hm1
  have hm0 : (0 : ℚ) ≤ m := le_trans (by norm_num) hm1q
  have he : e ≤ -1 := by
    by_contra hcon
    have hge : (2 : ℚ) ^ (-23 : ℤ) ≤ 2 ^ (e - 23) :=
      zpow_le_zpow_right₀ (by norm_num) (by omega)
    have h23 : (2 : ℚ) ^ (-23 : ℤ) = 1 / 2 ^ 23 := by norm_num
    rw [h23] at hge
    have : (2 : ℚ) ^ 23 * (1 / 2 ^ 23) ≤ m * 2 ^ (e - 23) :=
      mul_le_mul hm1q hge (by norm_num) hm0
    norm_num at this
    linarith
  rcases hm2.lt_or_eq with hlt | heq
  · have hle : (2 : ℚ) ^ (e - 23) ≤ 2 ^ (-24 : ℤ) :=
      zpow_le_zpow_right₀ (by norm_num) (by omega)
    have h24 : (2 : ℚ) ^ (-24 : ℤ) = 1 / 2 ^ 24 := by norm_num
    rw [h24] at hle
    have hmq : (m : ℚ) ≤ 2 ^ 24 - 1 := by
      have : m ≤ 2 ^ 24 - 1 := by omega
      exact_mod_cast this
    calc (m : ℚ) * 2 ^ (e - 23) ≤ (2 ^ 24 - 1) * (1 / 2 ^ 24) :=
          mul_le_mul hmq hle hu.le (by norm_num)
      _ = 1 - 1 / 2 ^ 24 := by norm_num
  · have he2 : e ≤ -2 := by
      by_contra hcon
      have hem : e = -1 := by omega
      rw [heq, hem] at h
      norm_num at h
    have hle : (2 : ℚ) ^ (e - 23) ≤ 2 ^ (-25 : ℤ) :=
      zpow_le_zpow_right₀ (by norm_num) (by omega)
    have h25 : (2 : ℚ) ^ (-25 : ℤ) = 1 / 2 ^ 25 := by norm_num
    rw [h25] at hle
    have hmq : (m : ℚ) ≤ 2 ^ 24 := by exact_mod_cast hm2
    calc (m : ℚ) * 2 ^ (e - 23) ≤ 2 ^ 24 * (1 / 2 ^ 25) :=
          mul_le_mul hmq hle hu.le (by norm_num)
      _ ≤ 1 - 1 / 2 ^ 24 := by norm_num

/-- A quotient below 1 scaled by 10 converts to an integer of at most 9. -/
theorem scaled_int_le_nine {x : ℚ} (hx : 0 < x) (h : roundF32 x < 1) :
    intOfFloat32 (f32mul (roundF32 x) 10) ≤ 9 := by
  have hr := roundF32_lt_one hx h
  have hr0 := roundF32_pos hx
  have e1 : roundF32 ((1 - 1 / 2 ^ 24) * 10) = 10485759 / 1048576 := by
    rw [roundF32_eval 20 10485759 (by norm_num) (by norm_num) (by norm_num) (by norm_num)]
    norm_num
  have hv : f32mul (roundF32 x) 10 ≤ 10485759 / 1048576 := by
    unfold f32mul
    calc roundF32 (roundF32 x * 10) ≤ roundF32 ((1 - 1 / 2 ^ 24) * 10) :=
          roundF32_mono (by positivity) (by linarith)
      _ = 10485759 / 1048576 := e1
  have hv0 : 0 ≤ f32mul (roundF32 x) 10 := roundF32_nonneg (by positivity)
  rw [intOfFloat32_of_nonneg hv0]
  have hlt : ⌊f32mul (roundF32 x) 10⌋ < 10 := by
    apply Int.floor_lt.mpr
    push_cast
    have : (10485759 : ℚ) / 1048576 < 10 := by norm_num
    linarith
  omega

/-! ## Evaluations at concrete arguments -/

/-- The quotient `float32(1677725) / float32(1864139)` and its product with 10: the
exact ratio is below 0.9, the binary32 product is exactly 9. -/
theorem scaled_int_1677725_1864139 :
    f32div (float32OfInt 1677725) (float32OfInt 1864139) = 7549747 / 8388608
      ∧ intOfFloat32 (f32mul (f32div (float32OfInt 1677725) (float32OfInt 1864139)) 10)
          = 9 := by
  have e1 : roundF32 (1677725 / 1864139) = 7549747 / 8388608 := by
    rw [roundF32_eval 24 15099493 (by norm_num) (by norm_num) (by norm_num) (by norm_num)]
    norm_num
  have e2 : roundF32 (7549747 / 8388608 * 10) = 9 := by
    rw [roundF32_eval 20 9437183 (by norm_num) (by norm_num) (by norm_num) (by norm_num)]
    norm_num
  have hq : f32div (float32OfInt 1677725) (float32OfInt 1864139) = 7549747 / 8388608 := by
    rw [float32OfInt_exact (by norm_num) (by norm_num),
      float32OfInt_exact (by norm_num) (by norm_num)]
    unfold f32div
    push_cast
    exact e1
  refine ⟨hq, ?_⟩
  rw [hq]
  unfold f32mul
  rw [e2]
  exact intOfFloat32_eval 9 (by norm_num) (by norm_num) (by norm_num)

/-- The quotient `float32(1) / float32(3)` is the binary32 value just above one third,
and its product with 10 converts to 3. -/
theorem scaled_int_1_3 :
    f32div (float32OfInt 1) (float32OfInt 3) = 11184811 / 33554432
      ∧ intOfFloat32 (f32mul (f32div (float32OfInt 1) (float32OfInt 3)) 10) = 3 := by
  have e1 : roundF32 (1 / 3) = 11184811 / 33554432 := by
    rw [roundF32_eval 25 11184810 (by norm_num) (by norm_num) (by norm_num) (by norm_num)]
    norm_num
  have e2 : roundF32 (11184811 / 33554432 * 10) = 6990507 / 2097152 := by
    rw [roundF32_eval 22 13981013 (by norm_num) (by norm_num) (by norm_num) (by norm_num)]
    norm_num
  have hq : f32div (float32OfInt 1) (float32OfInt 3) = 11184811 / 33554432 := by
    rw [float32OfInt_exact (by norm_num) (by norm_num),
      float32OfInt_exact (by norm_num) (by norm_num)]
    unfold f32div
    push_cast
    exact e1
  refine ⟨hq, ?_⟩
  rw [hq]
  unfold f32mul
  rw [e2]
  exact intOfFloat32_eval 3 (by norm_num) (by norm_num) (by norm_num)

/-- The quotient `float32(1) / float32(16)` is exactly 1/16, and its product with 10,
exactly 5/8, converts to 0. -/
theorem scaled_int_1_16 :
    f32div (float32OfInt 1) (float32OfInt 16) = 1 / 16
      ∧ intOfFloat32 (f32mul (f32div (float32OfInt 1) (float32OfInt 16)) 10) = 0 := by
  have e1 : roundF32 (1 / 16) = 1 / 16 := by
    rw [roundF32_eval 27 8388608 (by norm_num) (by norm_num) (by norm_num) (by norm_num)]
    norm_num
  have e2 : roundF32 (1 / 16 * 10) = 5 / 8 := by
    rw [roundF32_eval 24 10485760 (by norm_num) (by norm_num) (by norm_num) (by norm_num)]
    norm_num
  have hq : f32div (float32OfInt 1) (float32OfInt 16) = 1 / 16 := by
    rw [float32OfInt_exact (by norm_num) (by norm_num),
      float32OfInt_exact (by norm_num) (by norm_num)]
    unfold f32div
    push_cast
    exact e1
  refine ⟨hq, ?_⟩
  rw [hq]
  unfold f32mul
  rw [e2]
  exact intOfFloat32_eval 0 (by norm_num) (by norm_num) (by norm_num)

theorem isFloat32_half : isFloat32 (1 / 2) := by
  unfold isFloat32
  rw [roundF32_eval 24 8388608 (by norm_num) (by norm_num) (by norm_num) (by norm_num)]
  norm_num

theorem isFloat32_sixteenth : isFloat32 (1 / 16) := by
  unfold isFloat32
  rw [roundF32_eval 27 8388608 (by norm_num) (by norm_num) (by norm_num) (by norm_num)]
  norm_num

theorem isFloat32_third : isFloat32 (11184811 / 33554432) := by
  unfold isFloat32
  rw [roundF32_eval 25 11184811 (by norm_num) (by norm_num) (by norm_num) (by norm_num)]
  norm_num

/-- The result at numerator 5, denominator 10 and threshold 1/2 is a pass. -/
theorem proportional_5_10_passes :
    (MakeProportionalResult "check" 5 10 (.finite (1 / 2))).Pass = true
      ∧ (MakeProportionalResult "check" 5 10 (.finite (1 / 2))).Confidence
          = ⌊(10 * ((5 : ℤ) : ℚ)) / ((10 : ℤ) : ℚ)⌋ := by
  have hact : (1 / 2 : ℚ) ≤ f32div (float32OfInt 5) (float32OfInt 10) := by
    rw [float32OfInt_exact (by norm_num) (by norm_num),
      float32OfInt_exact (by norm_num) (by norm_num)]
    unfold f32div
    calc (1 / 2 : ℚ) = roundF32 (1 / 2) := isFloat32_half.symm
      _ ≤ roundF32 (((5 : ℤ) : ℚ) / ((10 : ℤ) : ℚ)) := roundF32_mono (by norm_num) (by norm_num)
  have hge : f32ge (f32div (float32OfInt 5) (float32OfInt 10)) (.finite (1 / 2)) = true := by
    simp only [f32ge, decide_eq_true_eq]
    exact hact
  rw [makeProportionalResult_ge "check" (by norm_num) (by norm_num) hge]
  exact ⟨rfl, scaled_int_eq_floor (by norm_num) (by norm_num) (by norm_num)⟩

/-! ## Claims on the guards and on the plain constructors -/

/-- C1: with denominator 0, `MakeProportionalResult` returns exactly the inconclusive
result carrying `ErrorDemoninatorZero`, for every name, numerator and threshold: not a
pass, confidence 0, no retry. -/
theorem makeProportionalResult_zero_denominator (name : String) (numerator : Int)
    (threshold : GoFloat32) :
    MakeProportionalResult name numerator 0 threshold
        = MakeInconclusiveResult name (some ErrorDemoninatorZero)
      ∧ (MakeProportionalResult name numerator 0 threshold).Pass = false
      ∧ (MakeProportionalResult name numerator 0 threshold).Confidence = 0
      ∧ (MakeProportionalResult name numerator 0 threshold).ShouldRetry = false
      ∧ (MakeProportionalResult name numerator 0 threshold).Error
          = some ErrorDemoninatorZero := by
  simp [MakeProportionalResult, MakeInconclusiveResult]

/-- C2: with numerator 0 and a denominator other than 0, `MakeProportionalResult` fails
with confidence 10, and the result is the same whatever the threshold. -/
theorem makeProportionalResult_zero_numerator (name : String) (denominator : Int)
    (threshold : GoFloat32) (hd : denominator ≠ 0) :
    (MakeProportionalResult name 0 denominator threshold).Pass = false
      ∧ (MakeProportionalResult name 0 denominator threshold).Confidence = 10
      ∧ ∀ other : GoFloat32,
          MakeProportionalResult name 0 denominator other
            = MakeProportionalResult name 0 denominator threshold := by
  simp [MakeProportionalResult, hd, MaxResultConfidence]

/-- C2 at denominator 10 and threshold 1/2, compared with every other threshold. -/
theorem makeProportionalResult_zero_numerator_witness :
    (MakeProportionalResult "check" 0 10 (.finite (1 / 2))).Pass = false
      ∧ (MakeProportionalResult "check" 0 10 (.finite (1 / 2))).Confidence = 10
      ∧ ∀ other : GoFloat32,
          MakeProportionalResult "check" 0 10 other
            = MakeProportionalResult "check" 0 10 (.finite (1 / 2)) :=
  makeProportionalResult_zero_numerator "check" 10 (.finite (1 / 2)) (by decide)

/-- C9: `MakePassResult name` has the given name, passes with confidence 10, carries no
error, does not ask for a retry and has no details. -/
theorem makePassResult_fields (name : String) :
    MakePassResult name
      = { Error := none, Name := name, Details := [], Confidence := 10, Pass := true,
          ShouldRetry := false } := by
  rfl

/-- C10: `MakeFailResult name err` with a non-nil `err` has the given name, fails with
confidence 10, carries exactly `err` and does not ask for a retry. -/
theorem makeFailResult_fields (name : String) (err : Option GoError) (herr : err ≠ none) :
    (MakeFailResult name err).Name = name
      ∧ (MakeFailResult name err).Pass = false
      ∧ (MakeFailResult name err).Confidence = 10
      ∧ (MakeFailResult name err).Error = err
      ∧ (MakeFailResult name err).Error ≠ none
      ∧ (MakeFailResult name err).ShouldRetry = false := by
  simp [MakeFailResult, MaxResultConfidence, herr]

/-- C10 at a concrete error. -/
theorem makeFailResult_fields_witness :
    (some (GoError.mk "no releases found") ≠ none)
      ∧ (MakeFailResult "check" (some ⟨"no releases found"⟩)).Name = "check"
      ∧ (MakeFailResult "check" (some ⟨"no releases found"⟩)).Pass = false
      ∧ (MakeFailResult "check" (some ⟨"no releases found"⟩)).Confidence = 10
      ∧ (MakeFailResult "check" (some ⟨"no releases found"⟩)).Error
          = some ⟨"no releases found"⟩
      ∧ (MakeFailResult "check" (some ⟨"no releases found"⟩)).Error ≠ none
      ∧ (MakeFailResult "check" (some ⟨"no releases found"⟩)).ShouldRetry = false :=
  ⟨by simp, makeFailResult_fields "check" (some ⟨"no releases found"⟩) (by simp)⟩

/-! ## Claims on the ratio branches -/

/-- C3, as amended: for `1 ≤ numerator ≤ denominator ≤ 1000000` and a positive binary32
threshold, if the exact ratio `numerator / denominator` is at least the threshold (which
is then in `(0, 1]`), then `MakeProportionalResult` passes with confidence
`⌊10 * numerator / denominator⌋`. -/
theorem makeProportionalResult_pass_confidence (name : String) (n d : ℤ) (t : ℚ)
    (hn : 1 ≤ n) (hnd : n ≤ d) (hd : d ≤ 1000000) (ht : isFloat32 t) (ht0 : 0 < t)
    (hr : t ≤ (n : ℚ) / d) :
    (MakeProportionalResult name n d (.finite t)).Pass = true
      ∧ (MakeProportionalResult name n d (.finite t)).Confidence = ⌊(10 * n : ℚ) / d⌋ := by
  have hact : t ≤ f32div (float32OfInt n) (float32OfInt d) := by
    rw [float32OfInt_exact (by omega) (by norm_num; omega),
      float32OfInt_exact (by omega) (by norm_num; omega)]
    unfold f32div
    calc t = roundF32 t := ht.symm
      _ ≤ roundF32 ((n : ℚ) / d) := roundF32_mono ht0.le hr
  have hge : f32ge (f32div (float32OfInt n) (float32OfInt d)) (.finite t) = true := by
    simp [f32ge, hact]
  rw [makeProportionalResult_ge name (by omega) (by omega) hge]
  exact ⟨rfl, scaled_int_eq_floor hn hnd hd⟩

/-- C3 at numerator 5, denominator 10 and threshold 1/2: a pass with confidence
`⌊10 * 5 / 10⌋`. -/
theorem makeProportionalResult_pass_confidence_witness :
    ((1 : ℤ) ≤ 5 ∧ (5 : ℤ) ≤ 10 ∧ (10 : ℤ) ≤ 1000000 ∧ isFloat32 (1 / 2) ∧ (0 : ℚ) < 1 / 2
        ∧ (1 / 2 : ℚ) ≤ ((5 : ℤ) : ℚ) / ((10 : ℤ) : ℚ))
      ∧ (MakeProportionalResult "check" 5 10 (.finite (1 / 2))).Pass = true
      ∧ (MakeProportionalResult "check" 5 10 (.finite (1 / 2))).Confidence
          = ⌊(10 * ((5 : ℤ) : ℚ)) / ((10 : ℤ) : ℚ)⌋ :=
  ⟨⟨by norm_num, by norm_num, by norm_num, isFloat32_half, by norm_num, by norm_num⟩,
    makeProportionalResult_pass_confidence "check" 5 10 (1 / 2) (by norm_num) (by norm_num)
      (by norm_num) isFloat32_half (by norm_num) (by norm_num)⟩

/-- C3 as stated fails at numerator 1677725, denominator 1864139, threshold 1/2: the
exact ratio is at least the threshold and `⌊10 * 1677725 / 1864139⌋ = 8`, but the
binary32 quotient rounds to the binary32 value nearest 0.9, whose product with 10 rounds
to 9, and the confidence is 9. -/
theorem makeProportionalResult_pass_confidence_counterexample :
    ((1 : ℤ) ≤ 1677725 ∧ (1677725 : ℤ) ≤ 1864139 ∧ isFloat32 (1 / 2) ∧ (0 : ℚ) < 1 / 2
        ∧ (1 / 2 : ℚ) ≤ 1 ∧ (1 / 2 : ℚ) ≤ ((1677725 : ℤ) : ℚ) / ((1864139 : ℤ) : ℚ))
      ∧ (MakeProportionalResult "check" 1677725 1864139 (.finite (1 / 2))).Pass = true
      ∧ (MakeProportionalResult "check" 1677725 1864139 (.finite (1 / 2))).Confidence = 9
      ∧ ⌊(10 * ((1677725 : ℤ) : ℚ)) / ((1864139 : ℤ) : ℚ)⌋ = 8
      ∧ ¬ ((MakeProportionalResult "check" 1677725 1864139 (.finite (1 / 2))).Pass = true
          ∧ (MakeProportionalResult "check" 1677725 1864139 (.finite (1 / 2))).Confidence
              = ⌊(10 * ((1677725 : ℤ) : ℚ)) / ((1864139 : ℤ) : ℚ)⌋) := by
  obtain ⟨hq, hc⟩ := scaled_int_1677725_1864139
  have hge : f32ge (f32div (float32OfInt 1677725) (float32OfInt 1864139))
      (.finite (1 / 2)) = true := by
    rw [hq]
    simp only [f32ge, decide_eq_true_eq]
    norm_num
  have hfloor : ⌊(10 * ((1677725 : ℤ) : ℚ)) / ((1864139 : ℤ) : ℚ)⌋ = 8 := by
    apply Int.floor_eq_iff.mpr
    constructor <;> norm_num
  rw [makeProportionalResult_ge "check" (by norm_num) (by norm_num) hge, hfloor]
  refine ⟨⟨by norm_num, by norm_num, isFloat32_half, by norm_num, by norm_num, by norm_num⟩,
    rfl, hc, rfl, ?_⟩
  rintro ⟨-, h⟩
  change intOfFloat32 (f32mul (f32div (float32OfInt 1677725) (float32OfInt 1864139)) 10)
    = 8 at h
  rw [hc] at h
  exact absurd h (by norm_num)

/-- C4, as amended: for `1 ≤ numerator ≤ denominator ≤ 1000000` and a finite threshold
(in particular one in `(0, 1]`), if the ratio `numerator / denominator` rounded to
binary32 is below the threshold, then `MakeProportionalResult` fails with confidence
`10 - ⌊10 * numerator / denominator⌋`. -/
theorem makeProportionalResult_fail_confidence (name : String) (n d : ℤ) (t : ℚ)
    (hn : 1 ≤ n) (hnd : n ≤ d) (hd : d ≤ 1000000) (hr : roundF32 ((n : ℚ) / d) < t) :
    (MakeProportionalResult name n d (.finite t)).Pass = false
      ∧ (MakeProportionalResult name n d (.finite t)).Confidence
          = 10 - ⌊(10 * n : ℚ) / d⌋ := by
  have hact : f32div (float32OfInt n) (float32OfInt d) < t := by
    rw [float32OfInt_exact (by omega) (by norm_num; omega),
      float32OfInt_exact (by omega) (by norm_num; omega)]
    exact hr
  have hlt : f32ge (f32div (float32OfInt n) (float32OfInt d)) (.finite t) = false := by
    simp [f32ge, hact]
  rw [makeProportionalResult_lt name (by omega) (by omega) hlt]
  refine ⟨rfl, ?_⟩
  change 10 - intOfFloat32 (f32mul (f32div (float32OfInt n) (float32OfInt d)) 10)
    = 10 - ⌊(10 * n : ℚ) / d⌋
  rw [scaled_int_eq_floor hn hnd hd]

/-- The binary32 value nearest to 3/10. -/
theorem roundF32_three_tenths : roundF32 (((3 : ℤ) : ℚ) / ((10 : ℤ) : ℚ)) = 5033165 / 16777216 := by
  rw [roundF32_eval 25 10066329 (by norm_num) (by norm_num) (by norm_num) (by norm_num)]
  norm_num

/-- C4 at numerator 3, denominator 10 and threshold 1/2: a fail with confidence
`10 - ⌊10 * 3 / 10⌋`. -/
theorem makeProportionalResult_fail_confidence_witness :
    ((1 : ℤ) ≤ 3 ∧ (3 : ℤ) ≤ 10 ∧ (10 : ℤ) ≤ 1000000
        ∧ roundF32 (((3 : ℤ) : ℚ) / ((10 : ℤ) : ℚ)) < 1 / 2)
      ∧ (MakeProportionalResult "check" 3 10 (.finite (1 / 2))).Pass = false
      ∧ (MakeProportionalResult "check" 3 10 (.finite (1 / 2))).Confidence
          = 10 - ⌊(10 * ((3 : ℤ) : ℚ)) / ((10 : ℤ) : ℚ)⌋ :=
  ⟨⟨by norm_num, by norm_num, by norm_num, by rw [roundF32_three_tenths]; norm_num⟩,
    makeProportionalResult_fail_confidence "check" 3 10 (1 / 2) (by norm_num) (by norm_num)
      (by norm_num) (by rw [roundF32_three_tenths]; norm_num)⟩

/-- C4 as stated fails at two inputs. At numerator 1, denominator 3 and the binary32
threshold `11184811 / 2^25` (the `float32` nearest to one third, just above it) the exact
ratio 1/3 is below the threshold, yet the binary32 quotient equals the threshold and the
result is a pass with confidence 3. At numerator 1677725, denominator 1864139 and
threshold 1 the result is a fail, but with confidence `10 - 9 = 1`, while
`10 - ⌊10 * 1677725 / 1864139⌋ = 2`. -/
theorem makeProportionalResult_fail_confidence_counterexample :
    (((1 : ℤ) ≤ 1 ∧ (1 : ℤ) ≤ 3 ∧ isFloat32 (11184811 / 33554432)
        ∧ (0 : ℚ) < 11184811 / 33554432 ∧ (11184811 / 33554432 : ℚ) ≤ 1
        ∧ ((1 : ℤ) : ℚ) / ((3 : ℤ) : ℚ) < 11184811 / 33554432)
      ∧ (MakeProportionalResult "check" 1 3 (.finite (11184811 / 33554432))).Pass = true
      ∧ (MakeProportionalResult "check" 1 3 (.finite (11184811 / 33554432))).Confidence = 3
      ∧ ¬ ((MakeProportionalResult "check" 1 3 (.finite (11184811 / 33554432))).Pass = false
          ∧ (MakeProportionalResult "check" 1 3 (.finite (11184811 / 33554432))).Confidence
              = 10 - ⌊(10 * ((1 : ℤ) : ℚ)) / ((3 : ℤ) : ℚ)⌋))
    ∧ (((1 : ℤ) ≤ 1677725 ∧ (1677725 : ℤ) ≤ 1864139 ∧ isFloat32 1 ∧ (0 : ℚ) < 1
        ∧ (1 : ℚ) ≤ 1 ∧ ((1677725 : ℤ) : ℚ) / ((1864139 : ℤ) : ℚ) < 1)
      ∧ (MakeProportionalResult "check" 1677725 1864139 (.finite 1)).Pass = false
      ∧ (MakeProportionalResult "check" 1677725 1864139 (.finite 1)).Confidence = 1
      ∧ ¬ ((MakeProportionalResult "check" 1677725 1864139 (.finite 1)).Pass = false
          ∧ (MakeProportionalResult "check" 1677725 1864139 (.finite 1)).Confidence
              = 10 - ⌊(10 * ((1677725 : ℤ) : ℚ)) / ((1864139 : ℤ) : ℚ)⌋)) := by
  constructor
  · obtain ⟨hq, hc⟩ := scaled_int_1_3
    have hge : f32ge (f32div (float32OfInt 1) (float32OfInt 3))
        (.finite (11184811 / 33554432)) = true := by
      rw [hq]
      simp [f32ge]
    rw [makeProportionalResult_ge "check" (by norm_num) (by norm_num) hge]
    refine ⟨⟨by norm_num, by norm_num, isFloat32_third, by norm_num, by norm_num,
      by norm_num⟩, rfl, hc, ?_⟩
    rintro ⟨h, -⟩
    exact absurd h (by decide)
  · obtain ⟨hq, hc⟩ := scaled_int_1677725_1864139
    have hlt : f32ge (f32div (float32OfInt 1677725) (float32OfInt 1864139))
        (.finite 1) = false := by
      rw [hq]
      simp only [f32ge, decide_eq_false_iff_not, not_le]
      norm_num
    have hfloor : ⌊(10 * ((1677725 : ℤ) : ℚ)) / ((1864139 : ℤ) : ℚ)⌋ = 8 := by
      apply Int.floor_eq_iff.mpr
      constructor <;> norm_num
    have hconf : (10 : ℤ)
        - intOfFloat32 (f32mul (f32div (float32OfInt 1677725) (float32OfInt 1864139)) 10)
          = 1 := by
      rw [hc]
      norm_num
    rw [makeProportionalResult_lt "check" (by norm_num) (by norm_num) hlt, hfloor]
    refine ⟨⟨by norm_num, by norm_num, roundF32_one, by norm_num, by norm_num, by norm_num⟩,
      rfl, hconf, ?_⟩
    rintro ⟨-, h⟩
    change (10 : ℤ)
        - intOfFloat32 (f32mul (f32div (float32OfInt 1677725) (float32OfInt 1864139)) 10)
      = 10 - 8 at h
    rw [hconf] at h
    exact absurd h (by norm_num)

/-! ## Claims on the invariants of the result -/

/-- C5: for `0 ≤ numerator ≤ denominator` and every threshold (in particular one in
`(0, 1]`) the confidence of `MakeProportionalResult` is in `[0, 10]`, and so is the
confidence of every result of `MakePassResult`, `MakeFailResult`,
`MakeInconclusiveResult` and `MakeRetryResult`. -/
theorem confidence_in_range (name : String) (err : Option GoError) (n d : ℤ)
    (threshold : GoFloat32) (hn : 0 ≤ n) (hnd : n ≤ d) :
    (0 ≤ (MakeProportionalResult name n d threshold).Confidence
        ∧ (MakeProportionalResult name n d threshold).Confidence ≤ 10)
      ∧ (0 ≤ (MakePassResult name).Confidence ∧ (MakePassResult name).Confidence ≤ 10)
      ∧ (0 ≤ (MakeFailResult name err).Confidence
        ∧ (MakeFailResult name err).Confidence ≤ 10)
      ∧ (0 ≤ (MakeInconclusiveResult name err).Confidence
        ∧ (MakeInconclusiveResult name err).Confidence ≤ 10)
      ∧ (0 ≤ (MakeRetryResult name err).Confidence
        ∧ (MakeRetryResult name err).Confidence ≤ 10) := by
  refine ⟨?_, by simp [MakePassResult, MaxResultConfidence],
    by simp [MakeFailResult, MaxResultConfidence], by simp [MakeInconclusiveResult],
    by simp [MakeRetryResult]⟩
  by_cases hd0 : d = 0
  · subst hd0
    simp [MakeProportionalResult, MakeInconclusiveResult]
  by_cases hn0 : n = 0
  · subst hn0
    simp [MakeProportionalResult, hd0, MaxResultConfidence]
  have hnpos : 0 < n := by omega
  have hb := scaled_int_bounds (actual_pos hnpos (lt_of_lt_of_le hnpos hnd))
    (actual_le_one hnpos hnd)
  rcases Bool.eq_false_or_eq_true
      (f32ge (f32div (float32OfInt n) (float32OfInt d)) threshold) with h | h
  · rw [makeProportionalResult_ge name hd0 hn0 h]
    exact hb
  · rw [makeProportionalResult_lt name hd0 hn0 h]
    change 0 ≤ 10 - intOfFloat32 (f32mul (f32div (float32OfInt n) (float32OfInt d)) 10)
      ∧ 10 - intOfFloat32 (f32mul (f32div (float32OfInt n) (float32OfInt d)) 10) ≤ 10
    omega

/-- C5 at numerator 3, denominator 10, threshold 1/2 and the nil error. -/
theorem confidence_in_range_witness :
    ((0 : ℤ) ≤ 3 ∧ (3 : ℤ) ≤ 10)
      ∧ (0 ≤ (MakeProportionalResult "check" 3 10 (.finite (1 / 2))).Confidence
        ∧ (MakeProportionalResult "check" 3 10 (.finite (1 / 2))).Confidence ≤ 10)
      ∧ (0 ≤ (MakePassResult "check").Confidence ∧ (MakePassResult "check").Confidence ≤ 10)
      ∧ (0 ≤ (MakeFailResult "check" none).Confidence
        ∧ (MakeFailResult "check" none).Confidence ≤ 10)
      ∧ (0 ≤ (MakeInconclusiveResult "check" none).Confidence
        ∧ (MakeInconclusiveResult "check" none).Confidence ≤ 10)
      ∧ (0 ≤ (MakeRetryResult "check" none).Confidence
        ∧ (MakeRetryResult "check" none).Confidence ≤ 10) :=
  ⟨⟨by norm_num, by norm_num⟩,
    confidence_in_range "check" none 3 10 (.finite (1 / 2)) (by norm_num) (by norm_num)⟩

/-- The result at numerator 1, denominator 16 and threshold 1/16: a pass with
confidence 0 and no error. -/
theorem makeProportionalResult_1_16 (name : String) :
    MakeProportionalResult name 1 16 (.finite (1 / 16))
      = { Name := name, Pass := true, Confidence := 0 } := by
  obtain ⟨hq, hc⟩ := scaled_int_1_16
  have hge : f32ge (f32div (float32OfInt 1) (float32OfInt 16)) (.finite (1 / 16))
      = true := by
    rw [hq]
    simp [f32ge]
  rw [makeProportionalResult_ge name (by norm_num) (by norm_num) hge, hc]

/-- C6, as amended: a pass has a positive confidence for `MakePassResult`,
`MakeFailResult`, `MakeInconclusiveResult` and `MakeRetryResult`, and for
`MakeProportionalResult` with `0 ≤ numerator ≤ denominator` when the threshold is at
least 1/10 (in particular a threshold in `[1/10, 1]`). On this domain the product handed
to `int(x)` is at most 10, so the conversion is exact. -/
theorem pass_confidence_pos (name : String) (err : Option GoError) (n d : ℤ) (t : ℚ)
    (hn : 0 ≤ n) (hnd : n ≤ d) (ht : 1 / 10 ≤ t) :
    ((MakeProportionalResult name n d (.finite t)).Pass = true
        → 0 < (MakeProportionalResult name n d (.finite t)).Confidence)
      ∧ ((MakePassResult name).Pass = true → 0 < (MakePassResult name).Confidence)
      ∧ ((MakeFailResult name err).Pass = true → 0 < (MakeFailResult name err).Confidence)
      ∧ ((MakeInconclusiveResult name err).Pass = true
        → 0 < (MakeInconclusiveResult name err).Confidence)
      ∧ ((MakeRetryResult name err).Pass = true
        → 0 < (MakeRetryResult name err).Confidence) := by
  refine ⟨?_, by simp [MakePassResult, MaxResultConfidence], by simp [MakeFailResult],
    by simp [MakeInconclusiveResult], by simp [MakeRetryResult]⟩
  by_cases hd0 : d = 0
  · subst hd0
    simp [MakeProportionalResult, MakeInconclusiveResult]
  by_cases hn0 : n = 0
  · subst hn0
    simp [MakeProportionalResult, hd0]
  rcases Bool.eq_false_or_eq_true
      (f32ge (f32div (float32OfInt n) (float32OfInt d)) (.finite t)) with h | h
  · rw [makeProportionalResult_ge name hd0 hn0 h]
    intro _
    have hnpos : 0 < n := lt_of_le_of_ne hn (Ne.symm hn0)
    have hrange := scaled_int_bounds (actual_pos hnpos (lt_of_lt_of_le hnpos hnd))
      (actual_le_one hnpos hnd)
    have hact : t ≤ f32div (float32OfInt n) (float32OfInt d) := by
      simpa [f32ge] using h
    have := scaled_int_pos (le_trans ht hact)
    change 0 < intOfFloat32 (f32mul (f32div (float32OfInt n) (float32OfInt d)) 10)
    omega
  · rw [makeProportionalResult_lt name hd0 hn0 h]
    intro hp
    simp at hp

/-- C6 at numerator 5, denominator 10, threshold 1/2 and the nil error: the result is a
pass, and its confidence is positive. -/
theorem pass_confidence_pos_witness :
    ((0 : ℤ) ≤ 5 ∧ (5 : ℤ) ≤ 10 ∧ (1 / 10 : ℚ) ≤ 1 / 2)
      ∧ (((MakeProportionalResult "check" 5 10 (.finite (1 / 2))).Pass = true
        → 0 < (MakeProportionalResult "check" 5 10 (.finite (1 / 2))).Confidence)
      ∧ ((MakePassResult "check").Pass = true → 0 < (MakePassResult "check").Confidence)
      ∧ ((MakeFailResult "check" none).Pass = true
        → 0 < (MakeFailResult "check" none).Confidence)
      ∧ ((MakeInconclusiveResult "check" none).Pass = true
        → 0 < (MakeInconclusiveResult "check" none).Confidence)
      ∧ ((MakeRetryResult "check" none).Pass = true
        → 0 < (MakeRetryResult "check" none).Confidence))
      ∧ (MakeProportionalResult "check" 5 10 (.finite (1 / 2))).Pass = true
      ∧ 0 < (MakeProportionalResult "check" 5 10 (.finite (1 / 2))).Confidence :=
  ⟨⟨by norm_num, by norm_num, by norm_num⟩,
    pass_confidence_pos "check" none 5 10 (1 / 2) (by norm_num) (by norm_num) (by norm_num),
    proportional_5_10_passes.1,
    (pass_confidence_pos "check" none 5 10 (1 / 2) (by norm_num) (by norm_num)
      (by norm_num)).1 proportional_5_10_passes.1⟩

/-- C6 as stated fails at numerator 1, denominator 16 and threshold 1/16, a valid input
(`0 ≤ 1 ≤ 16`, the threshold is a binary32 value in `(0, 1]`): the ratio meets the
threshold, so the result is a pass, and its confidence is `⌊10 / 16⌋ = 0`. -/
theorem pass_confidence_pos_counterexample :
    ((0 : ℤ) ≤ 1 ∧ (1 : ℤ) ≤ 16 ∧ isFloat32 (1 / 16) ∧ (0 : ℚ) < 1 / 16 ∧ (1 / 16 : ℚ) ≤ 1)
      ∧ (MakeProportionalResult "check" 1 16 (.finite (1 / 16))).Pass = true
      ∧ (MakeProportionalResult "check" 1 16 (.finite (1 / 16))).Confidence = 0
      ∧ ¬ ((MakeProportionalResult "check" 1 16 (.finite (1 / 16))).Pass = true
          → 0 < (MakeProportionalResult "check" 1 16 (.finite (1 / 16))).Confidence) := by
  rw [makeProportionalResult_1_16]
  refine ⟨⟨by norm_num, by norm_num, isFloat32_sixteenth, by norm_num, by norm_num⟩, rfl, rfl,
    ?_⟩
  intro h
  exact absurd (h rfl) (by decide)

/-- C7: for every result of the five constructors, a set retry flag implies a fail with
confidence 0; `MakeRetryResult` always sets the flag and has confidence 0, and no other
constructor ever sets it. -/
theorem retry_invariant (name : String) (err : Option GoError) (n d : ℤ)
    (threshold : GoFloat32) :
    (((MakeRetryResult name err).ShouldRetry = true
          → (MakeRetryResult name err).Pass = false
            ∧ (MakeRetryResult name err).Confidence = 0)
        ∧ ((MakePassResult name).ShouldRetry = true
          → (MakePassResult name).Pass = false ∧ (MakePassResult name).Confidence = 0)
        ∧ ((MakeFailResult name err).ShouldRetry = true
          → (MakeFailResult name err).Pass = false
            ∧ (MakeFailResult name err).Confidence = 0)
        ∧ ((MakeInconclusiveResult name err).ShouldRetry = true
          → (MakeInconclusiveResult name err).Pass = false
            ∧ (MakeInconclusiveResult name err).Confidence = 0)
        ∧ ((MakeProportionalResult name n d threshold).ShouldRetry = true
          → (MakeProportionalResult name n d threshold).Pass = false
            ∧ (MakeProportionalResult name n d threshold).Confidence = 0))
      ∧ ((MakeRetryResult name err).ShouldRetry = true
        ∧ (MakeRetryResult name err).Pass = false
        ∧ (MakeRetryResult name err).Confidence = 0)
      ∧ ((MakePassResult name).ShouldRetry = false
        ∧ (MakeFailResult name err).ShouldRetry = false
        ∧ (MakeInconclusiveResult name err).ShouldRetry = false
        ∧ (MakeProportionalResult name n d threshold).ShouldRetry = false) := by
  have hprop : (MakeProportionalResult name n d threshold).ShouldRetry = false := by
    unfold MakeProportionalResult MakeInconclusiveResult
    dsimp only
    split_ifs <;> rfl
  refine ⟨⟨by simp [MakeRetryResult], by simp [MakePassResult], by simp [MakeFailResult],
    by simp [MakeInconclusiveResult], ?_⟩, by simp [MakeRetryResult],
    by simp [MakePassResult], by simp [MakeFailResult], by simp [MakeInconclusiveResult],
    hprop⟩
  intro h
  rw [hprop] at h
  exact absurd h (by decide)

/-- C8, as amended: if the confidence is 0 and the retry flag is not set, the error is
non-nil, for `MakeInconclusiveResult` given a non-nil error, for `MakePassResult`,
`MakeFailResult` and `MakeRetryResult` given any error, and for
`MakeProportionalResult` with `0 ≤ numerator ≤ denominator` and a threshold of at most 1
(in particular one in `(0, 1]`) whenever the threshold is at least 1/10 or the result is
not a pass. -/
theorem inconclusive_has_error (name : String) (err : Option GoError) (e : GoError)
    (n d : ℤ) (t : ℚ) (hn : 0 ≤ n) (hnd : n ≤ d) (ht1 : t ≤ 1) :
    ((1 / 10 ≤ t ∨ (MakeProportionalResult name n d (.finite t)).Pass = false)
        → (MakeProportionalResult name n d (.finite t)).Confidence = 0
          ∧ (MakeProportionalResult name n d (.finite t)).ShouldRetry = false
        → (MakeProportionalResult name n d (.finite t)).Error ≠ none)
      ∧ ((MakeInconclusiveResult name (some e)).Confidence = 0
          ∧ (MakeInconclusiveResult name (some e)).ShouldRetry = false
        → (MakeInconclusiveResult name (some e)).Error ≠ none)
      ∧ ((MakePassResult name).Confidence = 0 ∧ (MakePassResult name).ShouldRetry = false
        → (MakePassResult name).Error ≠ none)
      ∧ ((MakeFailResult name err).Confidence = 0
          ∧ (MakeFailResult name err).ShouldRetry = false
        → (MakeFailResult name err).Error ≠ none)
      ∧ ((MakeRetryResult name err).Confidence = 0
          ∧ (MakeRetryResult name err).ShouldRetry = false
        → (MakeRetryResult name err).Error ≠ none) := by
  refine ⟨?_, by simp [MakeInconclusiveResult], by simp [MakePassResult, MaxResultConfidence],
    by simp [MakeFailResult, MaxResultConfidence], by simp [MakeRetryResult]⟩
  by_cases hd0 : d = 0
  · subst hd0
    simp [MakeProportionalResult, MakeInconclusiveResult]
  by_cases hn0 : n = 0
  · subst hn0
    simp [MakeProportionalResult, hd0, MaxResultConfidence]
  have hnpos : 0 < n := by omega
  have hdpos : 0 < d := lt_of_lt_of_le hnpos hnd
  rcases Bool.eq_false_or_eq_true
      (f32ge (f32div (float32OfInt n) (float32OfInt d)) (.finite t)) with h | h
  · rw [makeProportionalResult_ge name hd0 hn0 h]
    have hact : t ≤ f32div (float32OfInt n) (float32OfInt d) := by
      simpa [f32ge] using h
    rintro (ht | hp) ⟨hc, -⟩
    · have := scaled_int_pos (le_trans ht hact)
      change intOfFloat32 (f32mul (f32div (float32OfInt n) (float32OfInt d)) 10) = 0 at hc
      omega
    · simp at hp
  · rw [makeProportionalResult_lt name hd0 hn0 h]
    have hact : f32div (float32OfInt n) (float32OfInt d) < t := by
      simpa [f32ge] using h
    rintro - ⟨hc, -⟩
    have hlt1 : roundF32 (float32OfInt n / float32OfInt d) < 1 := lt_of_lt_of_le hact ht1
    have := scaled_int_le_nine (div_pos (float32OfInt_pos hnpos) (float32OfInt_pos hdpos)) hlt1
    change 10 - intOfFloat32 (f32mul (f32div (float32OfInt n) (float32OfInt d)) 10) = 0 at hc
    unfold f32div at hc
    omega

/-- C8 at numerator 5, denominator 10, threshold 1/2 and a concrete error. -/
theorem inconclusive_has_error_witness :
    ((0 : ℤ) ≤ 5 ∧ (5 : ℤ) ≤ 10 ∧ (1 / 2 : ℚ) ≤ 1)
      ∧ ((1 / 10 ≤ (1 / 2 : ℚ)
            ∨ (MakeProportionalResult "check" 5 10 (.finite (1 / 2))).Pass = false)
        → (MakeProportionalResult "check" 5 10 (.finite (1 / 2))).Confidence = 0
          ∧ (MakeProportionalResult "check" 5 10 (.finite (1 / 2))).ShouldRetry = false
        → (MakeProportionalResult "check" 5 10 (.finite (1 / 2))).Error ≠ none)
      ∧ ((MakeInconclusiveResult "check" (some ⟨"rate limited"⟩)).Confidence = 0
          ∧ (MakeInconclusiveResult "check" (some ⟨"rate limited"⟩)).ShouldRetry = false
        → (MakeInconclusiveResult "check" (some ⟨"rate limited"⟩)).Error ≠ none)
      ∧ ((MakePassResult "check").Confidence = 0 ∧ (MakePassResult "check").ShouldRetry = false
        → (MakePassResult "check").Error ≠ none)
      ∧ ((MakeFailResult "check" none).Confidence = 0
          ∧ (MakeFailResult "check" none).ShouldRetry = false
        → (MakeFailResult "check" none).Error ≠ none)
      ∧ ((MakeRetryResult "check" none).Confidence = 0
          ∧ (MakeRetryResult "check" none).ShouldRetry = false
        → (MakeRetryResult "check" none).Error ≠ none) :=
  ⟨⟨by norm_num, by norm_num, by norm_num⟩,
    inconclusive_has_error "check" none ⟨"rate limited"⟩ 5 10 (1 / 2) (by norm_num)
      (by norm_num) (by norm_num)⟩

/-- C8 as stated fails at two inputs: `MakeInconclusiveResult` given the nil error returns
confidence 0, no retry and a nil error; and `MakeProportionalResult` at numerator 1,
denominator 16, threshold 1/16 returns a pass with confidence 0, no retry and a nil
error. -/
theorem inconclusive_has_error_counterexample :
    ((MakeInconclusiveResult "check" none).Confidence = 0
        ∧ (MakeInconclusiveResult "check" none).ShouldRetry = false
        ∧ (MakeInconclusiveResult "check" none).Error = none)
      ∧ ((0 : ℤ) ≤ 1 ∧ (1 : ℤ) ≤ 16 ∧ isFloat32 (1 / 16) ∧ (0 : ℚ) < 1 / 16
        ∧ (1 / 16 : ℚ) ≤ 1)
      ∧ ((MakeProportionalResult "check" 1 16 (.finite (1 / 16))).Confidence = 0
        ∧ (MakeProportionalResult "check" 1 16 (.finite (1 / 16))).ShouldRetry = false
        ∧ (MakeProportionalResult "check" 1 16 (.finite (1 / 16))).Error = none) := by
  rw [makeProportionalResult_1_16]
  exact ⟨⟨rfl, rfl, rfl⟩,
    ⟨by norm_num, by norm_num, isFloat32_sixteenth, by norm_num, by norm_num⟩, rfl, rfl, rfl⟩

end Checker

namespace Data

open Checker (GoError)

/-! ## The sorted merge writer: reading and merging -/

theorem drainIterator_ok (historical : List RepoURL) (oldRepos : List repoEntry) :
    drainIterator (historical.map Except.ok) oldRepos
      = .ok (oldRepos ++ historical.map toRepoEntry) := by
  induction historical generalizing oldRepos with
  | nil => simp [drainIterator]
  | cons repo rest ih => simp [drainIterator, ih]

theorem drainIterator_error (read : List RepoURL) (err : GoError) (rest : Iterator)
    (oldRepos : List repoEntry) :
    drainIterator (read.map Except.ok ++ Except.error err :: rest) oldRepos = .error err := by
  induction read generalizing oldRepos with
  | nil => simp [drainIterator]
  | cons repo more ih => simp [drainIterator, ih]

theorem appendNewRepos_eq (newRepos : List RepoURL) (oldRepos : List repoEntry) :
    appendNewRepos newRepos oldRepos = oldRepos ++ newRepos.map toRepoEntry := by
  induction newRepos generalizing oldRepos with
  | nil => simp [appendNewRepos]
  | cons repo rest ih => simp [appendNewRepos, ih]

/-- When every `Next` succeeds, the slice handed to the encoder is the stable sort of the
historical entries followed by the new entries. -/
theorem collectRepos_ok (historical newRepos : List RepoURL) :
    collectRepos (.ok (historical.map Except.ok)) newRepos
      = .ok (SliceStable repoLess
          (historical.map toRepoEntry ++ newRepos.map toRepoEntry)) := by
  simp [collectRepos, drainIterator_ok, appendNewRepos_eq]

theorem sortAndAppend_ok {S W : Type} (csv : CsvLayer S W) (out : S)
    (historical newRepos : List RepoURL) :
    SortAndAppend csv (.ok (historical.map Except.ok)) out newRepos
      = encodeRepos csv out (SliceStable repoLess
          (historical.map toRepoEntry ++ newRepos.map toRepoEntry)) := by
  simp [SortAndAppend, collectRepos_ok]

theorem repoLess_eq_false_iff (a b : repoEntry) :
    repoLess b a = false ↔ goBytes a.Repo ≤ goBytes b.Repo := by
  simp [repoLess]

/-! ## Stable sorting by insertion -/

theorem sliceStable_sorted (s : List repoEntry) :
    List.Sorted (fun a b => goBytes a.Repo ≤ goBytes b.Repo) (SliceStable repoLess s) := by
  haveI : IsTotal repoEntry (fun a b => repoLess b a = false) :=
    ⟨fun a b => by
      simp only [repoLess_eq_false_iff]
      exact le_total (goBytes a.Repo) (goBytes b.Repo)⟩
  haveI : IsTrans repoEntry (fun a b => repoLess b a = false) :=
    ⟨fun a b c hab hbc => by
      simp only [repoLess_eq_false_iff] at hab hbc ⊢
      exact le_trans hab hbc⟩
  have h := List.sorted_insertionSort (fun a b : repoEntry => repoLess b a = false) s
  exact List.Pairwise.imp (fun {a b} hab => (repoLess_eq_false_iff a b).mp hab) h

theorem sliceStable_perm {α : Type} (less : α → α → Bool) (s : List α) :
    (SliceStable less s).Perm s :=
  List.perm_insertionSort _ s

/-- Inserting `a` in order keeps the sub-sequence selected by `p`, when every element
that `a` passes is rejected by `p` as soon as `a` is selected. -/
theorem filter_orderedInsert {α : Type} (r : α → α → Prop) [DecidableRel r] (p : α → Bool)
    (a : α) (s : List α) (h : ∀ b, ¬ r a b → p a = true → p b = false) :
    (s.orderedInsert r a).filter p = (a :: s).filter p := by
  induction s with
  | nil => simp
  | cons b s ih =>
    by_cases hab : r a b
    · simp [List.orderedInsert, hab]
    · have hb := h b hab
      simp only [List.orderedInsert, hab, if_false]
      by_cases hpa : p a = true
      · simp [List.filter_cons, hb hpa, ih, hpa]
      · simp [List.filter_cons, ih, hpa]

theorem filter_insertionSort {α : Type} (r : α → α → Prop) [DecidableRel r] (p : α → Bool)
    (s : List α) (h : ∀ a b, ¬ r a b → p a = true → p b = false) :
    (s.insertionSort r).filter p = s.filter p := by
  induction s with
  | nil => simp
  | cons a s ih =>
    rw [List.insertionSort, filter_orderedInsert r p a _ (h a)]
    simp [List.filter_cons, ih]

/-- Stability: the entries of one URL come out of the sort in the order they went in. -/
theorem sliceStable_filter_url (u : String) (s : List repoEntry) :
    (SliceStable repoLess s).filter (fun e => decide (e.Repo = u))
      = s.filter (fun e => decide (e.Repo = u)) := by
  apply filter_insertionSort
  intro a b hab ha
  simp only [repoLess_eq_false_iff, not_le] at hab
  simp only [decide_eq_true_eq] at ha
  simp only [decide_eq_false_iff_not]
  intro hb
  rw [ha, hb] at hab
  exact lt_irrefl (goBytes u) hab

/-! ## Claims on the sorted merge writer -/

/-- C13: when the iterator yields the historical records without error, the rows that
`SortAndAppend` hands to the encoder are sorted non-decreasing by URL under the
byte-wise comparison: every row is at most every later row, and in particular each row
is at most the next one. -/
theorem sortAndAppend_rows_sorted (historical newRepos : List RepoURL) :
    ∃ rows : List repoEntry,
      collectRepos (.ok (historical.map Except.ok)) newRepos = .ok rows
        ∧ (∀ (S W : Type) (csv : CsvLayer S W) (out : S),
            SortAndAppend csv (.ok (historical.map Except.ok)) out newRepos
              = encodeRepos csv out rows)
        ∧ List.Sorted (fun a b => goBytes a.Repo ≤ goBytes b.Repo) rows
        ∧ ∀ (i : ℕ) (h : i + 1 < rows.length),
            goBytes (rows.get ⟨i, Nat.lt_of_succ_lt h⟩).Repo
              ≤ goBytes (rows.get ⟨i + 1, h⟩).Repo := by
  refine ⟨_, collectRepos_ok historical newRepos,
    fun S W csv out => sortAndAppend_ok csv out historical newRepos,
    sliceStable_sorted _, ?_⟩
  intro i h
  exact List.Sorted.rel_get_of_lt (sliceStable_sorted _)
    (show (⟨i, Nat.lt_of_succ_lt h⟩ : Fin _) < ⟨i + 1, h⟩ from Nat.lt_succ_self i)

/-- C14: the order of the rows is stable with respect to the historical entries followed
by the new entries. For every URL the rows of that URL are the historical entries of
that URL in read order followed by the new entries of that URL in caller order; and two
entries of equal URL that stand in a given order in the input stand in that order in
the output. -/
theorem sortAndAppend_rows_stable (historical newRepos : List RepoURL) :
    ∃ rows : List repoEntry,
      collectRepos (.ok (historical.map Except.ok)) newRepos = .ok rows
        ∧ (∀ (S W : Type) (csv : CsvLayer S W) (out : S),
            SortAndAppend csv (.ok (historical.map Except.ok)) out newRepos
              = encodeRepos csv out rows)
        ∧ (∀ u : String,
            rows.filter (fun e => decide (e.Repo = u))
              = (historical.map toRepoEntry).filter (fun e => decide (e.Repo = u))
                ++ (newRepos.map toRepoEntry).filter (fun e => decide (e.Repo = u)))
        ∧ ∀ a b : repoEntry, a.Repo = b.Repo
            → List.Sublist [a, b] (historical.map toRepoEntry ++ newRepos.map toRepoEntry)
            → List.Sublist [a, b] rows := by
  refine ⟨_, collectRepos_ok historical newRepos,
    fun S W csv out => sortAndAppend_ok csv out historical newRepos, ?_, ?_⟩
  · intro u
    rw [sliceStable_filter_url, List.filter_append]
  · intro a b hab hsub
    have h1 := List.Sublist.filter (fun e => decide (e.Repo = a.Repo)) hsub
    have h2 : [a, b].filter (fun e => decide (e.Repo = a.Repo)) = [a, b] := by
      simp [List.filter_cons, hab]
    rw [h2, ← sliceStable_filter_url] at h1
    exact List.Sublist.trans h1 (List.filter_sublist _)

/-- C15: on success the rows handed to the encoder are a permutation of the historical
entries followed by the new entries: each entry occurs as often as in the two inputs
together, and the number of rows is `len(historical) + len(newRepos)`. With the buffered
CSV layer over a sink that takes every write, the call returns nil and the sink has
received the header and these rows. -/
theorem sortAndAppend_rows_perm (historical newRepos : List RepoURL) :
    ∃ rows : List repoEntry,
      collectRepos (.ok (historical.map Except.ok)) newRepos = .ok rows
        ∧ (∀ (S W : Type) (csv : CsvLayer S W) (out : S),
            SortAndAppend csv (.ok (historical.map Except.ok)) out newRepos
              = encodeRepos csv out rows)
        ∧ rows.Perm (historical.map toRepoEntry ++ newRepos.map toRepoEntry)
        ∧ rows.length = historical.length + newRepos.length
        ∧ (∀ e : repoEntry,
            rows.count e
              = (historical.map toRepoEntry).count e + (newRepos.map toRepoEntry).count e)
        ∧ ∀ taken : List (List String),
            SortAndAppend bufferedCsv (.ok (historical.map Except.ok))
                { records := taken, failure := none } newRepos
              = (none,
                  { records := taken ++
                      (match rows with
                        | [] => []
                        | _ :: _ => ["repo", "metadata"]
                            :: rows.map (fun r => [r.Repo, r.Metadata])),
                    failure := none }) := by
  have hperm := sliceStable_perm repoLess
    (historical.map toRepoEntry ++ newRepos.map toRepoEntry)
  refine ⟨_, collectRepos_ok historical newRepos,
    fun S W csv out => sortAndAppend_ok csv out historical newRepos, hperm, ?_, ?_, ?_⟩
  · rw [hperm.length_eq]
    simp
  · intro e
    rw [hperm.count_eq, List.count_append]
  · intro taken
    rw [sortAndAppend_ok]
    generalize SliceStable repoLess
      (historical.map toRepoEntry ++ newRepos.map toRepoEntry) = rows
    cases rows with
    | nil => simp [encodeRepos, bufferedCsv, Sink.Write]
    | cons r rest => simp [encodeRepos, bufferedCsv, Sink.Write]

/-- C16: if `MakeIterator` fails, or `Next` fails after any number of records, then
`SortAndAppend` returns a non-nil error that wraps the cause behind the context of the
failing stage, and the sink is in the state it was given, whatever the new records, the
sink and the CSV layer are. -/
theorem sortAndAppend_read_failure {S W : Type} (csv : CsvLayer S W) (out : S)
    (newRepos : List RepoURL) (err : GoError) (read : List RepoURL) (rest : Iterator) :
    (SortAndAppend csv (.error err) out newRepos
        = (some { msg := "error during MakeIterator: " ++ err.msg, cause := err }, out))
      ∧ (SortAndAppend csv (.ok (read.map Except.ok ++ Except.error err :: rest)) out
            newRepos
          = (some { msg := "error during iter.Next: " ++ err.msg, cause := err }, out)) := by
  constructor
  · simp [SortAndAppend, collectRepos, Errorf]
  · simp [SortAndAppend, collectRepos, drainIterator_error, Errorf]

/-- Whatever the CSV layer is, once `Encode` has reported no error `SortAndAppend`
returns nil: the state that `Flush` leaves the writer in is not looked at. -/
theorem encodeRepos_of_encode_ok {S W : Type} (csv : CsvLayer S W) (out : S)
    (rows : List repoEntry) (h : (csv.Encode (csv.NewWriter out) rows).2 = none) :
    (encodeRepos csv out rows).1 = none := by
  rcases hE : csv.Encode (csv.NewWriter out) rows with ⟨w, e⟩
  rw [hE] at h
  simp only at h
  subst h
  simp [encodeRepos, hE]

/-- C18, evaluated at a sink that fails every write, no historical record and one new
record: the output fits the buffer of the CSV writer, so `Encode` reports nothing, the
write fails in `Flush`, the writer holds the error, and `SortAndAppend` returns nil with
nothing written. -/
theorem sortAndAppend_flush_failure :
    SortAndAppend bufferedCsv (.ok [])
        { records := [], failure := some ⟨"write: broken pipe"⟩ }
        [{ url := "github.com/ossf/scorecard", Metadata := "" }]
      = (none, { records := [], failure := some ⟨"write: broken pipe"⟩ })
    ∧ bufferedCsv.Error
        (bufferedCsv.Flush
          (bufferedCsv.Encode
            (bufferedCsv.NewWriter { records := [], failure := some ⟨"write: broken pipe"⟩ })
            [{ Repo := "github.com/ossf/scorecard", Metadata := "" }]).1)
      = some ⟨"write: broken pipe"⟩ := by
  constructor
  · simp [SortAndAppend, collectRepos, drainIterator, appendNewRepos, SliceStable,
      encodeRepos, bufferedCsv, Sink.Write, toRepoEntry, RepoURL.URL]
  · simp [bufferedCsv, Sink.Write]

/-- A run on two historical and two new records, one URL in both: the sink receives the
header and the four rows in URL order, the historical `b` row before the new one. -/
theorem sortAndAppend_example :
    SortAndAppend bufferedCsv
        (.ok [.ok { url := "github.com/o/b", Metadata := "old" },
          .ok { url := "github.com/o/a", Metadata := "" }])
        { records := [], failure := none }
        [{ url := "github.com/o/c", Metadata := "" },
          { url := "github.com/o/b", Metadata := "new" }]
      = (none,
          { records := [["repo", "metadata"], ["github.com/o/a", ""],
              ["github.com/o/b", "old"], ["github.com/o/b", "new"], ["github.com/o/c", ""]],
            failure := none }) := by
  decide

end Data

namespace Checker

/-! ## Further claims on the constructors -/

/-- C11: `MakeInconclusiveResult name err` has the given name, fails with confidence 0,
carries `err`, asks for no retry and has no details; `MakeRetryResult name err` is the
same result with only the retry flag set. -/
theorem makeInconclusiveResult_makeRetryResult_fields (name : String)
    (err : Option GoError) :
    MakeInconclusiveResult name err
        = { Error := err, Name := name, Details := [], Confidence := 0, Pass := false,
            ShouldRetry := false }
      ∧ MakeRetryResult name err
        = { MakeInconclusiveResult name err with ShouldRetry := true }
      ∧ (MakeRetryResult name err).Name = (MakeInconclusiveResult name err).Name
      ∧ (MakeRetryResult name err).Pass = (MakeInconclusiveResult name err).Pass
      ∧ (MakeRetryResult name err).Confidence = (MakeInconclusiveResult name err).Confidence
      ∧ (MakeRetryResult name err).Error = (MakeInconclusiveResult name err).Error
      ∧ (MakeRetryResult name err).ShouldRetry = true := by
  refine ⟨rfl, rfl, rfl, rfl, rfl, rfl, rfl⟩

/-- C12: the result of `MakeProportionalResult` carries a non-nil error exactly when the
denominator is 0; the zero-numerator shortcut and both ratio branches attach none. -/
theorem makeProportionalResult_error_iff (name : String) (n d : ℤ) (threshold : GoFloat32) :
    ((MakeProportionalResult name n d threshold).Error ≠ none ↔ d = 0)
      ∧ (d = 0 → (MakeProportionalResult name n d threshold).Error = some ErrorDemoninatorZero)
      ∧ (d ≠ 0 → (MakeProportionalResult name n d threshold).Error = none) := by
  by_cases hd0 : d = 0
  · subst hd0
    simp [MakeProportionalResult, MakeInconclusiveResult]
  by_cases hn0 : n = 0
  · subst hn0
    simp [MakeProportionalResult, hd0]
  rcases Bool.eq_false_or_eq_true
      (f32ge (f32div (float32OfInt n) (float32OfInt d)) threshold) with h | h
  · rw [makeProportionalResult_ge name hd0 hn0 h]
    simp [hd0]
  · rw [makeProportionalResult_lt name hd0 hn0 h]
    simp [hd0]

/-- The integer that both ratio branches compute does not decrease when the numerator
grows. -/
theorem scaled_int_mono {n₁ n₂ d : ℤ} (h1 : 1 ≤ n₁) (h12 : n₁ ≤ n₂) (hd : 0 < d) :
    intOfFloat32 (f32mul (f32div (float32OfInt n₁) (float32OfInt d)) 10)
      ≤ intOfFloat32 (f32mul (f32div (float32OfInt n₂) (float32OfInt d)) 10) := by
  have hb := float32OfInt_pos hd
  have ha1 := float32OfInt_pos (show 0 < n₁ by omega)
  have ha := float32OfInt_mono (show 0 ≤ n₁ by omega) h12
  have hq : float32OfInt n₁ / float32OfInt d ≤ float32OfInt n₂ / float32OfInt d :=
    div_le_div_of_nonneg_right ha hb.le
  have hr : f32div (float32OfInt n₁) (float32OfInt d)
      ≤ f32div (float32OfInt n₂) (float32OfInt d) :=
    roundF32_mono (div_pos ha1 hb).le hq
  have hr0 : 0 < f32div (float32OfInt n₁) (float32OfInt d) := roundF32_pos (div_pos ha1 hb)
  have hv : f32mul (f32div (float32OfInt n₁) (float32OfInt d)) 10
      ≤ f32mul (f32div (float32OfInt n₂) (float32OfInt d)) 10 :=
    roundF32_mono (by positivity) (by linarith)
  have hv0 : 0 ≤ f32mul (f32div (float32OfInt n₁) (float32OfInt d)) 10 :=
    roundF32_nonneg (by positivity)
  rw [intOfFloat32_of_nonneg hv0, intOfFloat32_of_nonneg (le_trans hv0 hv)]
  exact Int.floor_mono hv

/-- C17: for numerators `1 ≤ n₁ ≤ n₂ ≤ denominator` and any one threshold (in particular
one in `(0, 1]`): if both results fail, the confidence at `n₁` is at least the confidence
at `n₂`; if both pass, the confidence at `n₁` is at most the confidence at `n₂`. -/
theorem proportional_confidence_monotone (name : String) (n₁ n₂ d : ℤ)
    (threshold : GoFloat32) (h1 : 1 ≤ n₁) (h12 : n₁ ≤ n₂) (h2d : n₂ ≤ d) :
    ((MakeProportionalResult name n₁ d threshold).Pass = false
        → (MakeProportionalResult name n₂ d threshold).Pass = false
        → (MakeProportionalResult name n₂ d threshold).Confidence
            ≤ (MakeProportionalResult name n₁ d threshold).Confidence)
      ∧ ((MakeProportionalResult name n₁ d threshold).Pass = true
        → (MakeProportionalResult name n₂ d threshold).Pass = true
        → (MakeProportionalResult name n₁ d threshold).Confidence
            ≤ (MakeProportionalResult name n₂ d threshold).Confidence) := by
  have hd : 0 < d := by omega
  have hmono := scaled_int_mono h1 h12 hd
  have hd0 : d ≠ 0 := by omega
  have hn1 : n₁ ≠ 0 := by omega
  have hn2 : n₂ ≠ 0 := by omega
  rcases Bool.eq_false_or_eq_true
      (f32ge (f32div (float32OfInt n₁) (float32OfInt d)) threshold) with ha | ha <;>
    rcases Bool.eq_false_or_eq_true
      (f32ge (f32div (float32OfInt n₂) (float32OfInt d)) threshold) with hb | hb
  · rw [makeProportionalResult_ge name hd0 hn1 ha, makeProportionalResult_ge name hd0 hn2 hb]
    exact ⟨fun h => by simp at h, fun _ _ => hmono⟩
  · rw [makeProportionalResult_ge name hd0 hn1 ha, makeProportionalResult_lt name hd0 hn2 hb]
    exact ⟨fun h => by simp at h, fun _ h => by simp at h⟩
  · rw [makeProportionalResult_lt name hd0 hn1 ha, makeProportionalResult_ge name hd0 hn2 hb]
    exact ⟨fun _ h => by simp at h, fun h => by simp at h⟩
  · rw [makeProportionalResult_lt name hd0 hn1 ha, makeProportionalResult_lt name hd0 hn2 hb]
    refine ⟨fun _ _ => ?_, fun h => by simp at h⟩
    change 10 - intOfFloat32 (f32mul (f32div (float32OfInt n₂) (float32OfInt d)) 10)
      ≤ 10 - intOfFloat32 (f32mul (f32div (float32OfInt n₁) (float32OfInt d)) 10)
    omega

/-- Evaluation of the fail branch for a denominator up to a million: the rounded ratio
is below the threshold, and `k` is the integer part of the exact `10 * n / d`. -/
theorem makeProportionalResult_eval_lt (name : String) {n d k : ℤ} {t : ℚ} (hn : 1 ≤ n)
    (hnd : n ≤ d) (hd : d ≤ 1000000) (hr : roundF32 ((n : ℚ) / d) < t)
    (hk1 : (k : ℚ) ≤ (10 * n : ℚ) / d) (hk2 : (10 * n : ℚ) / d < k + 1) :
    MakeProportionalResult name n d (.finite t)
      = { Name := name, Pass := false, Confidence := 10 - k } := by
  have hact : f32div (float32OfInt n) (float32OfInt d) < t := by
    rw [float32OfInt_exact (by omega) (by norm_num; omega),
      float32OfInt_exact (by omega) (by norm_num; omega)]
    exact hr
  have hlt : f32ge (f32div (float32OfInt n) (float32OfInt d)) (.finite t) = false := by
    simp [f32ge, hact]
  rw [makeProportionalResult_lt name (by omega) (by omega) hlt,
    scaled_int_eq_floor hn hnd hd, Int.floor_eq_iff.mpr ⟨hk1, hk2⟩]

/-- Evaluation of the pass branch for a denominator up to a million: the rounded ratio
is at least the threshold, and `k` is the integer part of the exact `10 * n / d`. -/
theorem makeProportionalResult_eval_ge (name : String) {n d k : ℤ} {t : ℚ} (hn : 1 ≤ n)
    (hnd : n ≤ d) (hd : d ≤ 1000000) (hr : t ≤ roundF32 ((n : ℚ) / d))
    (hk1 : (k : ℚ) ≤ (10 * n : ℚ) / d) (hk2 : (10 * n : ℚ) / d < k + 1) :
    MakeProportionalResult name n d (.finite t)
      = { Name := name, Pass := true, Confidence := k } := by
  have hact : t ≤ f32div (float32OfInt n) (float32OfInt d) := by
    rw [float32OfInt_exact (by omega) (by norm_num; omega),
      float32OfInt_exact (by omega) (by norm_num; omega)]
    exact hr
  have hge : f32ge (f32div (float32OfInt n) (float32OfInt d)) (.finite t) = true := by
    simp only [f32ge, decide_eq_true_eq]
    exact hact
  rw [makeProportionalResult_ge name (by omega) (by omega) hge,
    scaled_int_eq_floor hn hnd hd, Int.floor_eq_iff.mpr ⟨hk1, hk2⟩]

/-- The results at denominator 10 and threshold 1/2 for the numerators 1, 2, 6 and 7:
fails with confidence 9 and 8, passes with confidence 6 and 7. -/
theorem makeProportionalResult_tenths :
    MakeProportionalResult "check" 1 10 (.finite (1 / 2))
        = { Name := "check", Pass := false, Confidence := 9 }
      ∧ MakeProportionalResult "check" 2 10 (.finite (1 / 2))
        = { Name := "check", Pass := false, Confidence := 8 }
      ∧ MakeProportionalResult "check" 6 10 (.finite (1 / 2))
        = { Name := "check", Pass := true, Confidence := 6 }
      ∧ MakeProportionalResult "check" 7 10 (.finite (1 / 2))
        = { Name := "check", Pass := true, Confidence := 7 } := by
  have r1 : roundF32 (((1 : ℤ) : ℚ) / ((10 : ℤ) : ℚ)) = 13421773 / 134217728 := by
    rw [roundF32_eval 27 13421772 (by norm_num) (by norm_num) (by norm_num) (by norm_num)]
    norm_num
  have r2 : roundF32 (((2 : ℤ) : ℚ) / ((10 : ℤ) : ℚ)) = 13421773 / 67108864 := by
    rw [roundF32_eval 26 13421772 (by norm_num) (by norm_num) (by norm_num) (by norm_num)]
    norm_num
  have r6 : roundF32 (((6 : ℤ) : ℚ) / ((10 : ℤ) : ℚ)) = 5033165 / 8388608 := by
    rw [roundF32_eval 24 10066329 (by norm_num) (by norm_num) (by norm_num) (by norm_num)]
    norm_num
  have r7 : roundF32 (((7 : ℤ) : ℚ) / ((10 : ℤ) : ℚ)) = 11744051 / 16777216 := by
    rw [roundF32_eval 24 11744051 (by norm_num) (by norm_num) (by norm_num) (by norm_num)]
    norm_num
  refine ⟨?_, ?_, ?_, ?_⟩
  · have h := makeProportionalResult_eval_lt "check" (n := 1) (d := 10) (k := 1) (t := 1 / 2)
      (by norm_num) (by norm_num) (by norm_num) (by rw [r1]; norm_num) (by norm_num)
      (by norm_num)
    simpa using h
  · have h := makeProportionalResult_eval_lt "check" (n := 2) (d := 10) (k := 2) (t := 1 / 2)
      (by norm_num) (by norm_num) (by norm_num) (by rw [r2]; norm_num) (by norm_num)
      (by norm_num)
    simpa using h
  · exact makeProportionalResult_eval_ge "check" (n := 6) (d := 10) (k := 6) (t := 1 / 2)
      (by norm_num) (by norm_num) (by norm_num) (by rw [r6]; norm_num) (by norm_num)
      (by norm_num)
  · exact makeProportionalResult_eval_ge "check" (n := 7) (d := 10) (k := 7) (t := 1 / 2)
      (by norm_num) (by norm_num) (by norm_num) (by rw [r7]; norm_num) (by norm_num)
      (by norm_num)

/-- C17 at denominator 10 and threshold 1/2, on both sides of the threshold. The
numerators 1 and 2 both fail, with confidence 9 and 8, and the first implication gives
`8 ≤ 9`; the numerators 6 and 7 both pass, with confidence 6 and 7, and the second
implication gives `6 ≤ 7`. -/
theorem proportional_confidence_monotone_witness :
    (((1 : ℤ) ≤ 1 ∧ (1 : ℤ) ≤ 2 ∧ (2 : ℤ) ≤ 10)
        ∧ (MakeProportionalResult "check" 1 10 (.finite (1 / 2))).Pass = false
        ∧ (MakeProportionalResult "check" 2 10 (.finite (1 / 2))).Pass = false
        ∧ (MakeProportionalResult "check" 1 10 (.finite (1 / 2))).Confidence = 9
        ∧ (MakeProportionalResult "check" 2 10 (.finite (1 / 2))).Confidence = 8
        ∧ (MakeProportionalResult "check" 2 10 (.finite (1 / 2))).Confidence
            ≤ (MakeProportionalResult "check" 1 10 (.finite (1 / 2))).Confidence)
      ∧ (((1 : ℤ) ≤ 6 ∧ (6 : ℤ) ≤ 7 ∧ (7 : ℤ) ≤ 10)
        ∧ (MakeProportionalResult "check" 6 10 (.finite (1 / 2))).Pass = true
        ∧ (MakeProportionalResult "check" 7 10 (.finite (1 / 2))).Pass = true
        ∧ (MakeProportionalResult "check" 6 10 (.finite (1 / 2))).Confidence = 6
        ∧ (MakeProportionalResult "check" 7 10 (.finite (1 / 2))).Confidence = 7
        ∧ (MakeProportionalResult "check" 6 10 (.finite (1 / 2))).Confidence
            ≤ (MakeProportionalResult "check" 7 10 (.finite (1 / 2))).Confidence) := by
  obtain ⟨e1, e2, e6, e7⟩ := makeProportionalResult_tenths
  have p1 : (MakeProportionalResult "check" 1 10 (.finite (1 / 2))).Pass = false := by
    rw [e1]
  have p2 : (MakeProportionalResult "check" 2 10 (.finite (1 / 2))).Pass = false := by
    rw [e2]
  have p6 : (MakeProportionalResult "check" 6 10 (.finite (1 / 2))).Pass = true := by
    rw [e6]
  have p7 : (MakeProportionalResult "check" 7 10 (.finite (1 / 2))).Pass = true := by
    rw [e7]
  exact ⟨⟨⟨by norm_num, by norm_num, by norm_num⟩, p1, p2, by rw [e1], by rw [e2],
      (proportional_confidence_monotone "check" 1 2 10 (.finite (1 / 2)) (by norm_num)
        (by norm_num) (by norm_num)).1 p1 p2⟩,
    ⟨⟨by norm_num, by norm_num, by norm_num⟩, p6, p7, by rw [e6], by rw [e7],
      (proportional_confidence_monotone "check" 6 7 10 (.finite (1 / 2)) (by norm_num)
        (by norm_num) (by norm_num)).2 p6 p7⟩⟩

/-- C20: for `1 ≤ numerator ≤ denominator` and a threshold in `(0, 1]`, a pass of
`MakeProportionalResult` has confidence at least `⌊10 * threshold⌋`; so it has
confidence at least 1 when the threshold is at least 1/10, and a pass with confidence 0
needs a threshold below 1/10. On this domain the product handed to `int(x)` is at most
10, so the conversion is exact. -/
theorem pass_confidence_lower_bound (name : String) (n d : ℤ) (t : ℚ) (hn : 1 ≤ n)
    (hnd : n ≤ d) (ht0 : 0 < t) (ht1 : t ≤ 1)
    (hp : (MakeProportionalResult name n d (.finite t)).Pass = true) :
    ⌊10 * t⌋ ≤ (MakeProportionalResult name n d (.finite t)).Confidence
      ∧ (1 / 10 ≤ t → 1 ≤ (MakeProportionalResult name n d (.finite t)).Confidence)
      ∧ ((MakeProportionalResult name n d (.finite t)).Confidence = 0 → t < 1 / 10) := by
  have hmain : ⌊10 * t⌋ ≤ (MakeProportionalResult name n d (.finite t)).Confidence := by
    by_cases hd0 : d = 0
    · subst hd0
      simp [MakeProportionalResult, MakeInconclusiveResult] at hp
    by_cases hn0 : n = 0
    · subst hn0
      simp [MakeProportionalResult, hd0] at hp
    rcases Bool.eq_false_or_eq_true
        (f32ge (f32div (float32OfInt n) (float32OfInt d)) (.finite t)) with h | h
    · rw [makeProportionalResult_ge name hd0 hn0 h]
      have hrange := scaled_int_bounds (actual_pos (show 0 < n by omega)
        (show 0 < d by omega)) (actual_le_one (show 0 < n by omega) hnd)
      have hact : t ≤ f32div (float32OfInt n) (float32OfInt d) := by
        simpa [f32ge] using h
      have hk0 : 0 ≤ ⌊10 * t⌋ := Int.floor_nonneg.mpr (by positivity)
      have hk10 : ⌊10 * t⌋ ≤ 10 := by
        have hle := Int.floor_le (10 * t)
        have h10 : ((⌊10 * t⌋ : ℤ) : ℚ) ≤ ((10 : ℤ) : ℚ) := by
          push_cast
          linarith
        exact_mod_cast h10
      have hkle : ((⌊10 * t⌋ : ℤ) : ℚ) ≤ f32div (float32OfInt n) (float32OfInt d) * 10 := by
        have hle := Int.floor_le (10 * t)
        linarith
      have hexact : roundF32 ((⌊10 * t⌋ : ℤ) : ℚ) = ((⌊10 * t⌋ : ℤ) : ℚ) := by
        have := float32OfInt_exact hk0 (show ⌊10 * t⌋ < 2 ^ 24 by norm_num; omega)
        simpa [float32OfInt] using this
      have hv : ((⌊10 * t⌋ : ℤ) : ℚ)
          ≤ f32mul (f32div (float32OfInt n) (float32OfInt d)) 10 := by
        calc ((⌊10 * t⌋ : ℤ) : ℚ) = roundF32 ((⌊10 * t⌋ : ℤ) : ℚ) := hexact.symm
          _ ≤ f32mul (f32div (float32OfInt n) (float32OfInt d)) 10 :=
              roundF32_mono (by exact_mod_cast hk0) hkle
      have hv0 : 0 ≤ f32mul (f32div (float32OfInt n) (float32OfInt d)) 10 :=
        le_trans (by exact_mod_cast hk0) hv
      change ⌊10 * t⌋ ≤ intOfFloat32 (f32mul (f32div (float32OfInt n) (float32OfInt d)) 10)
      rw [intOfFloat32_of_nonneg hv0]
      exact Int.le_floor.mpr hv
    · rw [makeProportionalResult_lt name hd0 hn0 h] at hp
      simp at hp
  have hone : 1 / 10 ≤ t → 1 ≤ ⌊10 * t⌋ := by
    intro h
    apply Int.le_floor.mpr
    push_cast
    linarith
  refine ⟨hmain, fun h => le_trans (hone h) hmain, fun hc => ?_⟩
  by_contra hnot
  have := hone (not_lt.mp hnot)
  omega

/-- C20 at numerator 5, denominator 10 and threshold 1/2, where the result is a pass. -/
theorem pass_confidence_lower_bound_witness :
    ((1 : ℤ) ≤ 5 ∧ (5 : ℤ) ≤ 10 ∧ (0 : ℚ) < 1 / 2 ∧ (1 / 2 : ℚ) ≤ 1
        ∧ (MakeProportionalResult "check" 5 10 (.finite (1 / 2))).Pass = true)
      ∧ ⌊10 * (1 / 2 : ℚ)⌋ ≤ (MakeProportionalResult "check" 5 10 (.finite (1 / 2))).Confidence
      ∧ (1 / 10 ≤ (1 / 2 : ℚ)
        → 1 ≤ (MakeProportionalResult "check" 5 10 (.finite (1 / 2))).Confidence)
      ∧ ((MakeProportionalResult "check" 5 10 (.finite (1 / 2))).Confidence = 0
        → (1 / 2 : ℚ) < 1 / 10) :=
  ⟨⟨by norm_num, by norm_num, by norm_num, by norm_num, (proportional_5_10_passes).1⟩,
    pass_confidence_lower_bound "check" 5 10 (1 / 2) (by norm_num) (by norm_num)
      (by norm_num) (by norm_num) (proportional_5_10_passes).1⟩

end Checker

namespace Checker

/-! ## The ratio branches for numerators up to 800000 -/

theorem roundHalfEven_sub_le (q : ℚ) :
    q - 1 / 2 ≤ (roundHalfEven q : ℚ) ∧ (roundHalfEven q : ℚ) ≤ q + 1 / 2 := by
  have h1 := Int.floor_le q
  have h2 := Int.lt_floor_add_one q
  unfold roundHalfEven
  simp only
  split_ifs with ha hb hc
  · constructor <;> linarith
  · push_cast
    constructor <;> linarith
  · have : q - ⌊q⌋ = 1 / 2 := le_antisymm (not_lt.mp hb) (not_lt.mp ha)
    constructor <;> linarith
  · have : q - ⌊q⌋ = 1 / 2 := le_antisymm (not_lt.mp hb) (not_lt.mp ha)
    push_cast
    constructor <;> linarith

/-- Rounding to binary32 moves a positive number by at most the fraction `2^(-24)` of
it. -/
theorem roundF32_rel_error {x : ℚ} (hx : 0 < x) :
    x * (1 - 1 / 2 ^ 24) ≤ roundF32 x ∧ roundF32 x ≤ x * (1 + 1 / 2 ^ 24) := by
  obtain ⟨hu, hlo, -⟩ := ulp_bounds hx
  rw [roundF32_of_pos hx]
  obtain ⟨h1, h2⟩ := roundHalfEven_sub_le (x / 2 ^ (Int.log 2 x - 23))
  generalize roundHalfEven (x / 2 ^ (Int.log 2 x - 23)) = m at h1 h2 ⊢
  generalize (2 : ℚ) ^ (Int.log 2 x - 23) = u at hu hlo h1 h2 ⊢
  have e1 : x / u * u = x := div_mul_cancel₀ x (ne_of_gt hu)
  have k1 : (x / u - 1 / 2) * u ≤ (m : ℚ) * u := mul_le_mul_of_nonneg_right h1 hu.le
  have k2 : (m : ℚ) * u ≤ (x / u + 1 / 2) * u := mul_le_mul_of_nonneg_right h2 hu.le
  have k3 : (x / u - 1 / 2) * u = x - u / 2 := by rw [sub_mul, e1]; ring
  have k4 : (x / u + 1 / 2) * u = x + u / 2 := by rw [add_mul, e1]; ring
  have hu2 : u / 2 ≤ x * (1 / 2 ^ 24) := by
    have : u ≤ x / 2 ^ 23 := by
      rw [le_div_iff₀ (by norm_num)]
      linarith
    calc u / 2 ≤ x / 2 ^ 23 / 2 := by linarith
      _ = x * (1 / 2 ^ 24) := by ring
  constructor
  · calc x * (1 - 1 / 2 ^ 24) = x - x * (1 / 2 ^ 24) := by ring
      _ ≤ x - u / 2 := by linarith
      _ = (x / u - 1 / 2) * u := k3.symm
      _ ≤ (m : ℚ) * u := k1
  · calc (m : ℚ) * u ≤ (x / u + 1 / 2) * u := k2
      _ = x + u / 2 := k4
      _ ≤ x + x * (1 / 2 ^ 24) := by linarith
      _ = x * (1 + 1 / 2 ^ 24) := by ring

/-- Two roundings, of a positive quotient and of its product with 10, stay within the
factor `(1 ± 2^(-24))^2` of ten times the quotient. -/
theorem scaled_rel_error {q : ℚ} (hq : 0 < q) :
    10 * q * (1 - 1 / 2 ^ 24) ^ 2 ≤ roundF32 (roundF32 q * 10)
      ∧ roundF32 (roundF32 q * 10) ≤ 10 * q * (1 + 1 / 2 ^ 24) ^ 2 := by
  have hr0 := roundF32_pos hq
  obtain ⟨r1, r2⟩ := roundF32_rel_error hq
  obtain ⟨v1, v2⟩ := roundF32_rel_error (show 0 < roundF32 q * 10 by positivity)
  constructor
  · calc 10 * q * (1 - 1 / 2 ^ 24) ^ 2
        = q * (1 - 1 / 2 ^ 24) * 10 * (1 - 1 / 2 ^ 24) := by ring
      _ ≤ roundF32 q * 10 * (1 - 1 / 2 ^ 24) := by
          apply mul_le_mul_of_nonneg_right _ (by norm_num)
          linarith
      _ ≤ roundF32 (roundF32 q * 10) := v1
  · calc roundF32 (roundF32 q * 10) ≤ roundF32 q * 10 * (1 + 1 / 2 ^ 24) := v2
      _ ≤ q * (1 + 1 / 2 ^ 24) * 10 * (1 + 1 / 2 ^ 24) := by
          apply mul_le_mul_of_nonneg_right _ (by norm_num)
          linarith
      _ = 10 * q * (1 + 1 / 2 ^ 24) ^ 2 := by ring


/-- For an integer `k` below `2^23`, the binary32 value nearest to `k / 10`, multiplied
by 10 in binary32, is at least `k`. -/
theorem le_roundF32_tenth_scaled (k : ℤ) (h1 : 1 ≤ k) (h2 : k < 2 ^ 23) :
    (k : ℚ) ≤ roundF32 (roundF32 ((k : ℚ) / 10) * 10) := by
  have hkq : (1 : ℚ) ≤ k := by exact_mod_cast h1
  have hkq2 : (k : ℚ) < 2 ^ 23 := by exact_mod_cast h2
  have hx : (0 : ℚ) < k / 10 := div_pos (by linarith) (by norm_num)
  obtain ⟨hu, hlo, hhi⟩ := ulp_bounds hx
  have he : Int.log 2 ((k : ℚ) / 10) < 23 := by
    apply (Int.lt_zpow_iff_log_lt (by norm_num) hx).mp
    rw [Nat.cast_ofNat]
    have h23 : (2 : ℚ) ^ (23 : ℤ) = 2 ^ 23 := by norm_num
    rw [h23]
    linarith
  obtain ⟨j, hj⟩ : ∃ j : ℕ, Int.log 2 ((k : ℚ) / 10) - 23 = -(j : ℤ) :=
    ⟨(23 - Int.log 2 ((k : ℚ) / 10)).toNat, by
      rw [Int.toNat_of_nonneg (by omega)]
      ring⟩
  rw [hj, zpow_neg, zpow_natCast] at hlo hhi
  have hjpos : (0 : ℚ) < 2 ^ j := by positivity
  have hlo2 : (2 : ℚ) ^ 23 ≤ k / 10 * 2 ^ j := by
    rw [← div_eq_mul_inv, div_le_iff₀ hjpos] at hlo
    exact hlo
  have hhi2 : (k : ℚ) / 10 * 2 ^ j < 2 ^ 24 := by
    rw [← div_eq_mul_inv, lt_div_iff₀ hjpos] at hhi
    exact hhi
  have hj4 : 4 ≤ j := by
    by_contra hcon
    have hj3 : j ≤ 3 := by omega
    have hpow : (2 : ℚ) ^ j ≤ 2 ^ 3 := pow_le_pow_right₀ (by norm_num) hj3
    have : (k : ℚ) / 10 * 2 ^ j ≤ k / 10 * 2 ^ 3 := mul_le_mul_of_nonneg_left hpow hx.le
    norm_num at this hlo2
    linarith
  obtain ⟨i, rfl⟩ : ∃ i, j = i + 4 := ⟨j - 4, by omega⟩
  have hipos : (0 : ℚ) < 2 ^ i := by positivity
  have hsplit : (2 : ℚ) ^ (i + 4) = 2 ^ i * 16 := by rw [pow_add]; norm_num
  have hsplit1 : (2 : ℚ) ^ (i + 1) = 2 ^ i * 2 := by rw [pow_add]; norm_num
  -- the integer `T = k * 2^i`, one sixteenth of the scaled numerator
  obtain ⟨T, hT⟩ : ∃ T : ℤ, (T : ℚ) = k * 2 ^ i := ⟨k * 2 ^ i, by push_cast; ring⟩
  have hz : (k : ℚ) / 10 * 2 ^ (i + 4) = 8 * T / 5 := by rw [hsplit, hT]; ring
  rw [hz] at hlo2 hhi2
  have hTlo : (5 * 2 ^ 20 : ℚ) ≤ T := by linarith
  have hThi : (T : ℚ) < 5 * 2 ^ 21 := by linarith
  -- first rounding
  have hstep1 : ∃ M : ℤ, roundF32 ((k : ℚ) / 10) = M / 2 ^ (i + 4) ∧ 16 * T - 4 ≤ 10 * M := by
    have hf1 := Int.floor_le ((k : ℚ) / 10 * 2 ^ (i + 4))
    have hf2 := Int.lt_floor_add_one ((k : ℚ) / 10 * 2 ^ (i + 4))
    refine ⟨_, roundF32_eval (i + 4) ⌊(k : ℚ) / 10 * 2 ^ (i + 4)⌋ (by rw [hz]; exact hlo2)
      (by rw [hz]; exact hhi2) hf1 hf2, ?_⟩
    rw [hz] at hf1 hf2 ⊢
    generalize ⌊(8 * T / 5 : ℚ)⌋ = f at hf1 hf2 ⊢
    have hc1 : (5 * f : ℤ) ≤ 8 * T := by
      have : ((5 * f : ℤ) : ℚ) ≤ ((8 * T : ℤ) : ℚ) := by push_cast; linarith
      exact_mod_cast this
    split_ifs with ha hb hc
    · have : ((16 * T - 4 : ℤ) : ℚ) < ((10 * f + 1 : ℤ) : ℚ) := by push_cast; linarith
      have : (16 * T - 4 : ℤ) < 10 * f + 1 := by exact_mod_cast this
      omega
    · have : ((16 * T : ℤ) : ℚ) < ((10 * f + 10 : ℤ) : ℚ) := by push_cast; linarith
      have : (16 * T : ℤ) < 10 * f + 10 := by exact_mod_cast this
      omega
    · have heq : (8 * T / 5 : ℚ) - f = 1 / 2 := le_antisymm (not_lt.mp hb) (not_lt.mp ha)
      have : ((16 * T : ℤ) : ℚ) = ((10 * f + 5 : ℤ) : ℚ) := by push_cast; linarith
      have : (16 * T : ℤ) = 10 * f + 5 := by exact_mod_cast this
      omega
    · have heq : (8 * T / 5 : ℚ) - f = 1 / 2 := le_antisymm (not_lt.mp hb) (not_lt.mp ha)
      have : ((16 * T : ℤ) : ℚ) = ((10 * f + 5 : ℤ) : ℚ) := by push_cast; linarith
      have : (16 * T : ℤ) = 10 * f + 5 := by exact_mod_cast this
      omega
  obtain ⟨M, hM, hM10⟩ := hstep1
  have hM10q : (16 * T - 4 : ℚ) ≤ 10 * M := by exact_mod_cast hM10
  -- second rounding, from below
  have hkT : (k : ℚ) = T / 2 ^ i := by rw [hT]; field_simp
  have hy : (16 * T - 4 : ℚ) / 2 ^ (i + 4) ≤ roundF32 ((k : ℚ) / 10) * 10 := by
    rw [hM, div_mul_eq_mul_div, div_le_div_iff_of_pos_right (by positivity)]
    linarith
  have hy0 : (0 : ℚ) ≤ (16 * T - 4) / 2 ^ (i + 4) := by
    apply div_nonneg _ (by positivity)
    norm_num at hTlo
    linarith
  have hround : roundF32 ((16 * T - 4 : ℚ) / 2 ^ (i + 4)) = k := by
    by_cases hcase : (2 * T : ℚ) ≤ 2 ^ 24
    · have hs : (16 * T - 4 : ℚ) / 2 ^ (i + 4) * 2 ^ (i + 1) = 2 * T - 1 / 2 := by
        rw [hsplit, hsplit1]
        field_simp
        ring
      rw [roundF32_eval (i + 1) (2 * T - 1) (by rw [hs]; norm_num at hTlo ⊢; linarith)
        (by rw [hs]; linarith) (by rw [hs]; push_cast; linarith)
        (by rw [hs]; push_cast; linarith)]
      rw [hs]
      have hodd : (2 * T - 1) % 2 ≠ 0 := by omega
      have e1 : ¬ ((2 * T - 1 / 2 : ℚ) - ((2 * T - 1 : ℤ) : ℚ) < 1 / 2) := by
        push_cast
        linarith
      have e2 : ¬ ((1 / 2 : ℚ) < (2 * T - 1 / 2 : ℚ) - ((2 * T - 1 : ℤ) : ℚ)) := by
        push_cast
        linarith
      rw [if_neg e1, if_neg e2, if_neg hodd, hkT, hsplit1]
      push_cast
      field_simp
      ring
    · have hs : (16 * T - 4 : ℚ) / 2 ^ (i + 4) * 2 ^ i = T - 1 / 4 := by
        rw [hsplit]
        field_simp
        ring
      have hT23 : (2 : ℚ) ^ 23 + 1 ≤ T := by
        have hlt : (2 : ℚ) ^ 23 < T := by
          have := not_le.mp hcase
          linarith
        have hlt2 : (2 ^ 23 : ℤ) < T := by exact_mod_cast hlt
        have hle : (2 ^ 23 + 1 : ℤ) ≤ T := by omega
        exact_mod_cast hle
      rw [roundF32_eval i (T - 1) (by rw [hs]; linarith)
        (by rw [hs]; norm_num at hThi ⊢; linarith) (by rw [hs]; push_cast; linarith)
        (by rw [hs]; push_cast; linarith)]
      rw [hs]
      have e1 : ¬ ((T - 1 / 4 : ℚ) - ((T - 1 : ℤ) : ℚ) < 1 / 2) := by
        push_cast
        linarith
      have e2 : (1 / 2 : ℚ) < (T - 1 / 4 : ℚ) - ((T - 1 : ℤ) : ℚ) := by
        push_cast
        linarith
      rw [if_neg e1, if_pos e2, hkT]
      push_cast
      ring
  calc (k : ℚ) = roundF32 ((16 * T - 4 : ℚ) / 2 ^ (i + 4)) := hround.symm
    _ ≤ roundF32 (roundF32 ((k : ℚ) / 10) * 10) := roundF32_mono hy0 hy


/-- For numerators up to 800000 and every denominator the conversions take exactly, the
two binary32 roundings do not move the integer part: the converted product is the floor
of the exact `10 * n / d`, whether or not the numerator exceeds the denominator. -/
theorem scaled_int_eq_floor_of_numerator_le {n d : ℤ} (hn : 1 ≤ n) (hn8 : n ≤ 800000)
    (hd : 1 ≤ d) (hd24 : d < 2 ^ 24) :
    intOfFloat32 (f32mul (f32div (float32OfInt n) (float32OfInt d)) 10)
      = ⌊(10 * n : ℚ) / d⌋ := by
  have hnq : (1 : ℚ) ≤ n := by exact_mod_cast hn
  have hn8q : (n : ℚ) ≤ 800000 := by exact_mod_cast hn8
  have hdq : (0 : ℚ) < d := by exact_mod_cast (show (0 : ℤ) < d by omega)
  rw [float32OfInt_exact (by omega) (by norm_num; omega), float32OfInt_exact (by omega) hd24]
  unfold f32div f32mul
  have hratio : (0 : ℚ) < n / d := div_pos (by linarith) hdq
  have hv0 : 0 ≤ roundF32 (roundF32 ((n : ℚ) / d) * 10) :=
    roundF32_nonneg (mul_nonneg (roundF32_nonneg hratio.le) (by norm_num))
  obtain ⟨hrel1, hrel2⟩ := scaled_rel_error hratio
  rw [intOfFloat32_of_nonneg hv0]
  obtain ⟨hklo, hkhi⟩ :=
    Int.floor_eq_iff.mp (rfl : ⌊(10 * n : ℚ) / d⌋ = ⌊(10 * n : ℚ) / d⌋)
  have hk0 : 0 ≤ ⌊(10 * n : ℚ) / d⌋ := Int.floor_nonneg.mpr (by positivity)
  generalize ⌊(10 * n : ℚ) / d⌋ = k at hklo hkhi hk0 ⊢
  rw [le_div_iff₀ hdq] at hklo
  rw [div_lt_iff₀ hdq] at hkhi
  have hkloZ : k * d ≤ 10 * n := by exact_mod_cast hklo
  have hkhiZ : 10 * n < (k + 1) * d := by exact_mod_cast hkhi
  have hsq1 : ((1 : ℚ) + 1 / 2 ^ 24) ^ 2 = 1 + 33554433 / 281474976710656 := by norm_num
  have hsq2 : ((1 : ℚ) - 1 / 2 ^ 24) ^ 2 = 1 - 33554431 / 281474976710656 := by norm_num
  rw [hsq1] at hrel2
  rw [hsq2] at hrel1
  apply Int.floor_eq_iff.mpr
  constructor
  · rcases hk0.lt_or_eq with hpos | hzero
    · by_cases hex : k * d = 10 * n
      · have hkd : k ≤ k * d := le_mul_of_one_le_right hk0 hd
        have hq : (n : ℚ) / d = k / 10 := by
          have : (k : ℚ) * d = 10 * n := by exact_mod_cast hex
          rw [div_eq_div_iff (ne_of_gt hdq) (by norm_num)]
          linarith
        rw [hq]
        exact le_roundF32_tenth_scaled k (by omega) (by norm_num; omega)
      · have hstrict : k * d + 1 ≤ 10 * n := by omega
        have hstrictq : (k : ℚ) * d + 1 ≤ 10 * n := by exact_mod_cast hstrict
        have hgoal : (k : ℚ) ≤ 10 * (n / d) * (1 - 33554431 / 281474976710656) := by
          rw [show 10 * ((n : ℚ) / d) * (1 - 33554431 / 281474976710656)
            = 10 * n * (1 - 33554431 / 281474976710656) / d by ring, le_div_iff₀ hdq]
          linarith
        linarith
    · rw [← hzero]
      simpa using hv0
  · have hint : 10 * n + 1 ≤ (k + 1) * d := by omega
    have hintq : (10 * n + 1 : ℚ) ≤ (k + 1) * d := by exact_mod_cast hint
    have hgoal : 10 * ((n : ℚ) / d) * (1 + 33554433 / 281474976710656) < k + 1 := by
      rw [show 10 * ((n : ℚ) / d) * (1 + 33554433 / 281474976710656)
        = 10 * n * (1 + 33554433 / 281474976710656) / d by ring, div_lt_iff₀ hdq]
      linarith
    linarith

/-- C19, as amended: `MakeProportionalResult` does not clamp the numerator against the
denominator. For every numerator up to 800000 that exceeds a denominator of at least 1,
and every threshold of at most 1 (in particular one in `(0, 1]`), the result is a pass
with confidence `⌊10 * numerator / denominator⌋`, which is at least 10; numerator 20,
denominator 10 and threshold 1/2 give confidence 20. -/
theorem makeProportionalResult_unclamped (name : String) (n d : ℤ) (t : ℚ) (hd : 1 ≤ d)
    (hdn : d < n) (hn : n ≤ 800000) (ht1 : t ≤ 1) :
    ((MakeProportionalResult name n d (.finite t)).Pass = true
        ∧ (MakeProportionalResult name n d (.finite t)).Confidence = ⌊(10 * n : ℚ) / d⌋
        ∧ 10 ≤ (MakeProportionalResult name n d (.finite t)).Confidence)
      ∧ ((MakeProportionalResult name 20 10 (.finite (1 / 2))).Pass = true
        ∧ (MakeProportionalResult name 20 10 (.finite (1 / 2))).Confidence = 20) := by
  have key : ∀ (m e : ℤ) (s : ℚ), 1 ≤ e → e < m → m ≤ 800000 → s ≤ 1 →
      (MakeProportionalResult name m e (.finite s)).Pass = true
        ∧ (MakeProportionalResult name m e (.finite s)).Confidence = ⌊(10 * m : ℚ) / e⌋
        ∧ 10 ≤ (MakeProportionalResult name m e (.finite s)).Confidence := by
    intro m e s he hem hm hs
    have heq : (0 : ℚ) < e := by exact_mod_cast (show (0 : ℤ) < e by omega)
    have hmq : (e : ℚ) ≤ m := by exact_mod_cast hem.le
    have hact : s ≤ f32div (float32OfInt m) (float32OfInt e) := by
      rw [float32OfInt_exact (by omega) (by norm_num; omega),
        float32OfInt_exact (by omega) (by norm_num; omega)]
      unfold f32div
      calc s ≤ 1 := hs
        _ = roundF32 1 := roundF32_one.symm
        _ ≤ roundF32 ((m : ℚ) / e) := roundF32_mono (by norm_num) ((one_le_div heq).mpr hmq)
    have hge : f32ge (f32div (float32OfInt m) (float32OfInt e)) (.finite s) = true := by
      simp only [f32ge, decide_eq_true_eq]
      exact hact
    have hfloor := scaled_int_eq_floor_of_numerator_le (show 1 ≤ m by omega) hm he
      (show e < 2 ^ 24 by norm_num; omega)
    have hten : 10 ≤ ⌊(10 * m : ℚ) / e⌋ := by
      apply Int.le_floor.mpr
      rw [le_div_iff₀ heq]
      push_cast
      linarith
    rw [makeProportionalResult_ge name (by omega) (by omega) hge]
    exact ⟨rfl, hfloor, by rw [← hfloor] at hten; exact hten⟩
  refine ⟨key n d t hd hdn hn ht1, ?_⟩
  obtain ⟨hp, hc, -⟩ := key 20 10 (1 / 2) (by norm_num) (by norm_num) (by norm_num)
    (by norm_num)
  refine ⟨hp, ?_⟩
  rw [hc]
  apply Int.floor_eq_iff.mpr
  constructor <;> norm_num

/-- C19 at numerator 20, denominator 10 and threshold 1/2. -/
theorem makeProportionalResult_unclamped_witness :
    ((1 : ℤ) ≤ 10 ∧ (10 : ℤ) < 20 ∧ (20 : ℤ) ≤ 800000 ∧ (1 / 2 : ℚ) ≤ 1)
      ∧ ((MakeProportionalResult "check" 20 10 (.finite (1 / 2))).Pass = true
        ∧ (MakeProportionalResult "check" 20 10 (.finite (1 / 2))).Confidence
            = ⌊(10 * ((20 : ℤ) : ℚ)) / ((10 : ℤ) : ℚ)⌋
        ∧ 10 ≤ (MakeProportionalResult "check" 20 10 (.finite (1 / 2))).Confidence)
      ∧ ((MakeProportionalResult "check" 20 10 (.finite (1 / 2))).Pass = true
        ∧ (MakeProportionalResult "check" 20 10 (.finite (1 / 2))).Confidence = 20) :=
  ⟨⟨by norm_num, by norm_num, by norm_num, by norm_num⟩,
    makeProportionalResult_unclamped "check" 20 10 (1 / 2) (by norm_num) (by norm_num)
      (by norm_num) (by norm_num)⟩

/-- The quotient `float32(932534) / float32(1821)` and its product with 10: the exact
`10 * 932534 / 1821` is below 5121, the binary32 product is exactly 5121. -/
theorem scaled_int_932534_1821 :
    f32div (float32OfInt 932534) (float32OfInt 1821) = 4195123 / 8192
      ∧ intOfFloat32 (f32mul (f32div (float32OfInt 932534) (float32OfInt 1821)) 10)
          = 5121 := by
  have e1 : roundF32 (932534 / 1821) = 4195123 / 8192 := by
    rw [roundF32_eval 14 8390245 (by norm_num) (by norm_num) (by norm_num) (by norm_num)]
    norm_num
  have e2 : roundF32 (4195123 / 8192 * 10) = 5121 := by
    rw [roundF32_eval 11 10487807 (by norm_num) (by norm_num) (by norm_num) (by norm_num)]
    norm_num
  have hq : f32div (float32OfInt 932534) (float32OfInt 1821) = 4195123 / 8192 := by
    rw [float32OfInt_exact (by norm_num) (by norm_num),
      float32OfInt_exact (by norm_num) (by norm_num)]
    unfold f32div
    push_cast
    exact e1
  refine ⟨hq, ?_⟩
  rw [hq]
  unfold f32mul
  rw [e2]
  exact intOfFloat32_eval 5121 (by norm_num) (by norm_num) (by norm_num)

/-- C19 as stated fails at numerator 932534, denominator 1821 and threshold 1/2: the
ratio exceeds the threshold and `⌊10 * 932534 / 1821⌋ = 5120`, but the binary32 product
of the rounded quotient with 10 is a tie that rounds up to 5121, and the confidence is
5121. -/
theorem makeProportionalResult_unclamped_counterexample :
    ((0 : ℤ) ≤ 932534 ∧ (0 : ℤ) < 1821 ∧ (1821 : ℤ) < 932534 ∧ isFloat32 (1 / 2)
        ∧ (0 : ℚ) < 1 / 2 ∧ (1 / 2 : ℚ) ≤ 1
        ∧ (1 / 2 : ℚ) ≤ ((932534 : ℤ) : ℚ) / ((1821 : ℤ) : ℚ))
      ∧ (MakeProportionalResult "check" 932534 1821 (.finite (1 / 2))).Pass = true
      ∧ (MakeProportionalResult "check" 932534 1821 (.finite (1 / 2))).Confidence = 5121
      ∧ ⌊(10 * ((932534 : ℤ) : ℚ)) / ((1821 : ℤ) : ℚ)⌋ = 5120
      ∧ ¬ ((MakeProportionalResult "check" 932534 1821 (.finite (1 / 2))).Confidence
            = ⌊(10 * ((932534 : ℤ) : ℚ)) / ((1821 : ℤ) : ℚ)⌋) := by
  obtain ⟨hq, hc⟩ := scaled_int_932534_1821
  have hge : f32ge (f32div (float32OfInt 932534) (float32OfInt 1821))
      (.finite (1 / 2)) = true := by
    rw [hq]
    simp only [f32ge, decide_eq_true_eq]
    norm_num
  have hfloor : ⌊(10 * ((932534 : ℤ) : ℚ)) / ((1821 : ℤ) : ℚ)⌋ = 5120 := by
    apply Int.floor_eq_iff.mpr
    constructor <;> norm_num
  rw [makeProportionalResult_ge "check" (by norm_num) (by norm_num) hge, hfloor]
  refine ⟨⟨by norm_num, by norm_num, by norm_num, isFloat32_half, by norm_num, by norm_num,
    by norm_num⟩, rfl, hc, rfl, ?_⟩
  intro h
  change intOfFloat32 (f32mul (f32div (float32OfInt 932534) (float32OfInt 1821)) 10)
    = 5120 at h
  rw [hc] at h
  exact absurd h (by norm_num)

end Checker
